import Mathlib

/-!
# oss-csi-lite-plugin: command validation, connector bridge and managed-token decryption

A shallow embedding of `pkg/utils/auth.go` and of the command helpers of
`pkg/utils/util.go`.

* A Go `string` and a Go `[]byte` are lists of byte values (`List Nat`).
* A Go `error` is `Option GoString`: `none` is `nil`, `some msg` is a non-nil
  error whose `Error()` text is `msg`.
* A function that can hit a Go run-time panic returns a `GoResult`.
* Calls that leave the process (running a command, the socket, the AES block
  primitive) are parameters of the embedded function.
-/

namespace OssCsi

/-! ## Strings, errors, run-time panics -/

abbrev Byte := Nat

abbrev GoString := List Byte

abbrev GoError := Option GoString

/-- The bytes of an ASCII literal (for ASCII text the code points are the
UTF-8 bytes). -/
def str (s : String) : GoString := s.toList.map Char.toNat

/-- The run-time panics the embedded code can raise. -/
inductive RuntimePanic where
  | indexOutOfRange
  | sliceBoundsOutOfRange
  | makesliceLenOutOfRange
  | inputNotFullBlocks
  deriving DecidableEq, Repr

/-- Outcome of a Go call: it returns a value or the goroutine panics. -/
inductive GoResult (α : Type) where
  | ret (a : α)
  | panicked (p : RuntimePanic)
  deriving DecidableEq, Repr

/-- Go `strings.HasPrefix`. -/
def HasPrefix (s p : GoString) : Bool := p.isPrefixOf s

/-- Go `strings.Contains`: `sub` occurs in `s` as a contiguous run of bytes. -/
def Contains : GoString → GoString → Bool
  | [], sub => HasPrefix [] sub
  | c :: cs, sub => HasPrefix (c :: cs) sub || Contains cs sub

/-- Go `strings.Split(s, sep)` for a separator of one byte (the only kind the
repository uses: `" "` and `"\n"`). The empty string splits into `[""]`. -/
def Split : GoString → Byte → List GoString
  | [], _ => [[]]
  | c :: cs, sep =>
    if c = sep then [] :: Split cs sep
    else
      match Split cs sep with
      | [] => [[c]]
      | t :: ts => (c :: t) :: ts

/-- Go `strings.Join(elems, sep)`. -/
def Join (elems : List GoString) (sep : GoString) : GoString :=
  sep.intercalate elems

/-! ## `pkg/utils/auth.go`: the validators -/

/-- The members of `cmdSet` (a `hashset` of command names). -/
def cmdSet : List GoString :=
  [str "mount", str "lctl", str "umount", str "nsenter", str "findmnt", str "chmod",
   str "dd", str "mkfs.ext4", str "cat", str "ps", str "hostname", str "sysctl"]

/-- The bytes of the bracket expression `cmdRegexp`, the Go literal
"[|$&;.'<>()%+\\\\]" with a backquote where the dot stands. Inside the
brackets every character is literal and the doubled backslash is one escaped
backslash, so the class is: `|` `$` `&` `;` backquote (96) apostrophe (39)
`<` `>` `(` `)` `%` `+` backslash (92). -/
def cmdRegexp : List Byte :=
  [124, 36, 38, 59, 96, 39, 60, 62, 40, 41, 37, 43, 92]

/-- The call `regexp.MatchString(cmdRegexp, element)`: the pattern is one
unanchored bracket expression, so it matches when some byte of `element` is in
the class. The pattern is a valid constant, so the call's `err` is always
`nil`. -/
def MatchString (element : GoString) : Bool :=
  element.any (fun b => decide (b ∈ cmdRegexp))

/-- Go `CheckCmdArgs(cmd, args...)`; the `err != nil` branch of the regexp call
is dead (see `MatchString`). -/
def CheckCmdArgs (cmd : GoString) : List GoString → GoError
  | [] => none
  | element :: rest =>
    if MatchString element then
      some (str "Command " ++ cmd ++ str " has illegal access, args:" ++ element ++ str ".")
    else CheckCmdArgs cmd rest

/-- Go `CheckCmd(cmd, name)`. -/
def CheckCmd (cmd name : GoString) : GoError :=
  if ¬ (name ∈ cmdSet) then
    some (str "Command " ++ cmd ++ str " has illegal access, base command:" ++ name ++ str ".")
  else none

/-- The condition of the `if` in the loop of `CheckRequestArgs`: eight
`strings.Contains` tests, for `&` `|` `;` `$` apostrophe (39) backquote (96)
`(` `)`. -/
def requestValueIllegal (value : GoString) : Bool :=
  Contains value (str "&") || Contains value (str "|") || Contains value (str ";") ||
  Contains value (str "$") || Contains value [39] || Contains value [96] ||
  Contains value (str "(") || Contains value (str ")")

/-- One iteration of the `for _, value := range m` loop of `CheckRequestArgs`,
on the loop state `(valid, msg)`. -/
def checkRequestArgsStep (st : Bool × GoString) (kv : GoString × GoString) : Bool × GoString :=
  if requestValueIllegal kv.2 then
    (false, st.2 ++ (str "Args " ++ kv.2 ++ str " has illegal access."))
  else st

/-- Go `CheckRequestArgs(m)`. The map is given as the list of its entries in
the order the `range` loop visits them (Go leaves that order unspecified).
The function returns `errors.New(msg)` on every path. -/
def CheckRequestArgs (m : List (GoString × GoString)) : Bool × GoError :=
  let st := m.foldl checkRequestArgsStep (true, [])
  (st.1, some st.2)

/-- Go `ValidatePath(path)`. -/
def ValidatePath (path : GoString) : Bool × GoError :=
  if Contains path (str "../") || Contains path (str "/..") || Contains path (str "..") then
    (false, some (str "Path " ++ path ++ str " has illegal access."))
  else if Contains path (str "./") || Contains path (str "/.") then
    (false, some (str "Path " ++ path ++ str " has illegal access."))
  else (true, none)

/-- Go `CheckRequest(m, path)`. -/
def CheckRequest (m : List (GoString × GoString)) (path : GoString) : Bool × GoError :=
  let r := CheckRequestArgs m
  if ¬ r.1 then r
  else
    let r2 := ValidatePath path
    if ¬ r2.1 then r2
    else (r2.1, none)

/-! ## `pkg/utils/util.go`: `ValidateRun` -/

/-- The `%+v` rendering of a `[]string`: the elements between brackets,
separated by one space. -/
def fmtStrings (args : List GoString) : GoString :=
  str "[" ++ Join args (str " ") ++ str "]"

/-- Go `ValidateRun(cmd)`. `Exec name args` stands for building the command
with `safeMount.Exec.Command` and calling `CombinedOutput`; it yields the
combined output and the error. -/
def ValidateRun (Exec : GoString → List GoString → GoString × GoError) (cmd : GoString) :
    GoResult (GoString × GoError) :=
  let arr := Split cmd 32
  let withArgs := decide (arr.length ≥ 2)
  match arr with
  | [] => .panicked .indexOutOfRange
  | name :: rest =>
    match CheckCmd cmd name with
    | some e => .ret ([], some e)
    | none =>
      let args : List GoString := if withArgs then rest else []
      match (if withArgs then CheckCmdArgs cmd args else none) with
      | some e => .ret ([], some e)
      | none =>
        match Exec name args with
        | (stdout, some e) =>
          .ret ([], some (str "Failed to exec command:" ++ cmd ++ str ", name:" ++ name ++
            str ", args:" ++ fmtStrings args ++ str ", stdout:" ++ stdout ++
            str ", stderr:" ++ e))
        | (stdout, none) => .ret (stdout, none)

/-! ## `pkg/utils/util.go`: `ConnectorRun` -/

/-- The unix socket to the host connector as `ConnectorRun` sees it: the error
of `net.Dial`, the error of `c.Write` for the bytes written, and what the one
`c.Read` into the 2048-byte buffer yields, the bytes `buf[0:n]` and its error. -/
structure Connector where
  Dial : GoError
  Write : GoString → GoError
  Read : GoString → GoString × GoError

/-- The Go slice expression `s[lo:]` on a string: it panics when `lo` is past
the end. -/
def sliceFrom (s : GoString) (lo : Nat) : GoResult GoString :=
  if lo ≤ s.length then .ret (s.drop lo) else .panicked .sliceBoundsOutOfRange

/-- Go `ConnectorRun(cmd)`. The error of `c.Read` is assigned and never
read. -/
def ConnectorRun (c : Connector) (cmd : GoString) : GoResult (GoString × GoError) :=
  match c.Dial with
  | some e => .ret (e, some e)
  | none =>
    match c.Write cmd with
    | some e => .ret (e, some e)
    | none =>
      let response := (c.Read cmd).1
      if HasPrefix response (str "Success") then
        match sliceFrom response 8 with
        | .ret respstr => .ret (respstr, none)
        | .panicked p => .panicked p
      else .ret (response, some (str "Exec command error:" ++ response))

/-! ## `encoding/base64`, `crypto/aes`, `crypto/cipher` as `Decrypt` uses them -/

/-- Go `strconv.Itoa` on a natural number. -/
def Itoa (n : Nat) : GoString := (Nat.toDigits 10 n).map Char.toNat

/-- The `decodeMap` of `base64.StdEncoding`: `A-Z`, `a-z`, `0-9`, `+`, `/`. -/
def decodeMap (b : Byte) : Option Nat :=
  if 65 ≤ b ∧ b ≤ 90 then some (b - 65)
  else if 97 ≤ b ∧ b ≤ 122 then some (b - 97 + 26)
  else if 48 ≤ b ∧ b ≤ 57 then some (b - 48 + 52)
  else if b = 43 then some 62
  else if b = 47 then some 63
  else none

/-- The text of a `base64.CorruptInputError`. -/
def CorruptInputError (pos : Nat) : GoString :=
  str "illegal base64 data at input byte " ++ Itoa pos

/-- The loops `for si < len(src) && (src[si] == '\n' || src[si] == '\r')` of
`decodeQuantum`: what is left of the input after them. -/
def skipNewlines : GoString → GoString
  | [] => []
  | b :: rest => if b = 10 ∨ b = 13 then skipNewlines rest else b :: rest

/-- The bytes one quantum of `j` six-bit values yields (`j - 1` of them), the
missing values being zero. -/
def quantumBytes (q : List Nat) : List Byte :=
  let val := q.getD 0 0 * 262144 + q.getD 1 0 * 4096 + q.getD 2 0 * 64 + q.getD 3 0
  [val / 65536 % 256, val / 256 % 256, val % 256].take (q.length - 1)

/-- The end of `decodeQuantum` once the padding is read: newlines are
skipped, anything after them is trailing garbage, and the quantum's bytes are
written in both cases. `rest` is the input from index `si` on. -/
def decodeTail (srcLen : Nat) (q : List Nat) (rest : GoString) (out : List Byte) :
    List Byte × GoError :=
  match skipNewlines rest with
  | [] => (out ++ quantumBytes q, none)
  | _ :: rest3 => (out ++ quantumBytes q, some (CorruptInputError (srcLen - (rest3.length + 1))))

/-- The branch of `decodeQuantum` taken when a `=` is read after `q.length`
six-bit values; `rest` is the input after that `=`. -/
def decodePadding (srcLen : Nat) (q : List Nat) (rest : GoString) (out : List Byte) :
    List Byte × GoError :=
  match q.length with
  | 0 => (out, some (CorruptInputError (srcLen - rest.length - 1)))
  | 1 => (out, some (CorruptInputError (srcLen - rest.length - 1)))
  | 2 =>
    match skipNewlines rest with
    | [] => (out, some (CorruptInputError srcLen))
    | b :: rest2 =>
      if b ≠ 61 then (out, some (CorruptInputError (srcLen - (rest2.length + 1) - 1)))
      else decodeTail srcLen q rest2 out
  | _ => decodeTail srcLen q rest out

/-- The loop of `Encoding.Decode` over `decodeQuantum` for `StdEncoding`
(padded, not strict), byte by byte: `q` holds the six-bit values of the
quantum being read, `out` the bytes written so far. The result is `dst[:n]`
and the error. -/
def decodeLoop (srcLen : Nat) : GoString → List Nat → List Byte → List Byte × GoError
  | [], q, out =>
    if q.length = 0 then (out, none)
    else (out, some (CorruptInputError (srcLen - q.length)))
  | b :: rest, q, out =>
    match decodeMap b with
    | some v =>
      if q.length = 3 then decodeLoop srcLen rest [] (out ++ quantumBytes (q ++ [v]))
      else decodeLoop srcLen rest (q ++ [v]) out
    | none =>
      if b = 10 ∨ b = 13 then decodeLoop srcLen rest q out
      else if b ≠ 61 then (out, some (CorruptInputError (srcLen - rest.length - 1)))
      else decodePadding srcLen q rest out

/-- Go `Encoding.DecodedLen` for a padded encoding. -/
def DecodedLen (n : Nat) : Nat := n / 4 * 3

/-- Go `base64.StdEncoding.DecodeString(s)`: the decoded bytes `dbuf[:n]` and
the error. The slice it returns has capacity `DecodedLen (len s)`, and the
bytes of `dbuf` past `n` are zero. -/
def DecodeString (s : GoString) : List Byte × GoError :=
  decodeLoop s.length s [] []

/-- Go `aes.NewCipher(key)`: the `KeySizeError` for a key that is not 16, 24
or 32 bytes long, `nil` otherwise. -/
def NewCipher (key : List Byte) : GoError :=
  if key.length = 16 ∨ key.length = 24 ∨ key.length = 32 then none
  else some (str "crypto/aes: invalid key size " ++ Itoa key.length)

/-- Byte-wise exclusive or of two blocks. -/
def xorBytes (a b : List Byte) : List Byte := List.zipWith Nat.xor a b

/-- The block loop of `cbcDecrypter.CryptBlocks`, for `n` blocks of 16 bytes:
each plaintext block is the block decryption of the ciphertext block, xored
with the ciphertext block before it (the IV for the first). -/
def cryptBlocksLoop (dec : List Byte → List Byte) : Nat → List Byte → List Byte → List Byte
  | 0, _, _ => []
  | n + 1, prev, src =>
    xorBytes (dec (src.take 16)) prev ++ cryptBlocksLoop dec n (src.take 16) (src.drop 16)

/-- Go `blockMode.CryptBlocks(dst, src)` of a CBC decrypter with block size 16
and `len(dst) = len(src)`: it panics unless `src` is a whole number of
blocks. -/
def CryptBlocks (dec : List Byte → List Byte) (iv src : List Byte) : GoResult (List Byte) :=
  if src.length % 16 ≠ 0 then .panicked .inputNotFullBlocks
  else .ret (cryptBlocksLoop dec (src.length / 16) iv src)

/-! ## `pkg/utils/auth.go`: the managed token -/

/-- Go `PKCS5UnPadding(origData)`: `origData[length-1]` panics on the empty
slice, `origData[:(length - unpadding)]` panics when `unpadding > length`. -/
def PKCS5UnPadding (origData : List Byte) : GoResult (List Byte) :=
  let length := origData.length
  if length = 0 then .panicked .indexOutOfRange
  else
    let unpadding := origData.getD (length - 1) 0
    if unpadding ≤ length then .ret (origData.take (length - unpadding))
    else .panicked .sliceBoundsOutOfRange

/-- Go `Decrypt(s, keyring)`. `aesDecrypt key block` is the AES block
decryption (`block.Decrypt`) under `key`. The slice `cdata[:blockSize]` is
taken up to the capacity of `cdata`; `make([]byte, len(cdata)-blockSize)`
panics on a negative length. -/
def Decrypt (aesDecrypt : List Byte → List Byte → List Byte) (s : GoString)
    (keyring : List Byte) : GoResult (List Byte × GoError) :=
  match DecodeString s with
  | (_, some err) => .ret ([], some err)
  | (cdata, none) =>
    match NewCipher keyring with
    | some err => .ret ([], some err)
    | none =>
      let blockSize := 16
      if DecodedLen s.length < blockSize then .panicked .sliceBoundsOutOfRange
      else
        let iv := (cdata ++ List.replicate (DecodedLen s.length - cdata.length) 0).take blockSize
        if cdata.length < blockSize then .panicked .makesliceLenOutOfRange
        else
          match CryptBlocks (aesDecrypt keyring) iv (cdata.drop blockSize) with
          | .panicked p => .panicked p
          | .ret origData =>
            match PKCS5UnPadding origData with
            | .panicked p => .panicked p
            | .ret plain => .ret (plain, none)

/-- Go `AKInfo`, the JSON document of the managed-token file. -/
structure AKInfo where
  AccessKeyID : GoString
  AccessKeySecret : GoString
  SecurityToken : GoString
  Expiration : GoString
  Keyring : GoString
  RoleAccessKeyID : GoString
  RoleAccessKeySecret : GoString
  RoleArn : GoString
  deriving DecidableEq, Repr

/-- Go `ManageTokens`; the zero value `ManageTokens{}` has every field
empty. -/
structure ManageTokens where
  AccessKeyID : GoString := []
  AccessKeySecret : GoString := []
  SecurityToken : GoString := []
  RoleAccessKeyID : GoString := []
  RoleAccessKeySecret : GoString := []
  RoleArn : GoString := []
  deriving DecidableEq, Repr

/-- The file at `ConfigPath` as `getManagedToken` meets it: `os.Stat` fails,
`ioutil.ReadFile` fails, `json.Unmarshal` fails, or the file unmarshals into an
`AKInfo`. -/
inductive ConfigFile where
  | absent
  | unreadable (err : GoString)
  | malformed (err : GoString)
  | parsed (akInfo : AKInfo)
  deriving DecidableEq, Repr

/-- Go `getManagedToken()`. The block between the third `Decrypt` and the
assignments parses `akInfo.Expiration` and compares it with `time.Now()`; it
only writes log lines, like every `log.Errorf` here, so it has no part in the
value returned. `tokens.RoleArn` is assigned after the role block, on both of
its branches. -/
def getManagedToken (aesDecrypt : List Byte → List Byte → List Byte) :
    ConfigFile → GoResult ManageTokens
  | .absent => .ret {}
  | .unreadable _ => .ret {}
  | .malformed _ => .ret {}
  | .parsed akInfo =>
    let keyring := akInfo.Keyring
    match Decrypt aesDecrypt akInfo.AccessKeyID keyring with
    | .panicked p => .panicked p
    | .ret (_, some _) => .ret {}
    | .ret (ak, none) =>
      match Decrypt aesDecrypt akInfo.AccessKeySecret keyring with
      | .panicked p => .panicked p
      | .ret (_, some _) => .ret {}
      | .ret (sk, none) =>
        match Decrypt aesDecrypt akInfo.SecurityToken keyring with
        | .panicked p => .panicked p
        | .ret (_, some _) => .ret {}
        | .ret (token, none) =>
          if akInfo.RoleAccessKeyID ≠ [] ∧ akInfo.RoleAccessKeySecret ≠ [] then
            match Decrypt aesDecrypt akInfo.RoleAccessKeyID keyring with
            | .panicked p => .panicked p
            | .ret (_, some _) => .ret {}
            | .ret (roleAK, none) =>
              match Decrypt aesDecrypt akInfo.RoleAccessKeySecret keyring with
              | .panicked p => .panicked p
              | .ret (_, some _) => .ret {}
              | .ret (roleSK, none) =>
                .ret { AccessKeyID := ak, AccessKeySecret := sk, SecurityToken := token,
                       RoleAccessKeyID := roleAK, RoleAccessKeySecret := roleSK,
                       RoleArn := akInfo.RoleArn }
          else
            .ret { AccessKeyID := ak, AccessKeySecret := sk, SecurityToken := token,
                   RoleArn := akInfo.RoleArn }

/-! ## Vocabulary of the statements -/

/-- The characters the specification's denylist sentence names:
`|` `$` `&` `;` backquote apostrophe `<` `>` `(` `)` `%` and the backslash. -/
def listedMetachars : List Byte :=
  [124, 36, 38, 59, 96, 39, 60, 62, 40, 41, 37, 92]

/-- A string holds at least one of the listed metacharacters. -/
def hasListedMetachar (s : GoString) : Bool :=
  s.any (fun b => decide (b ∈ listedMetachars))

/-- The characters `CheckRequestArgs` looks for: `&` `|` `;` `$` apostrophe
backquote `(` `)`. -/
def requestDenylist : List Byte := [38, 124, 59, 36, 39, 96, 40, 41]

/-- `Decrypt` returns a non-nil error for `s` under `keyring`. -/
def decryptFails (aesDecrypt : List Byte → List Byte → List Byte) (s : GoString)
    (keyring : List Byte) : Bool :=
  match Decrypt aesDecrypt s keyring with
  | .ret (_, some _) => true
  | _ => false

/-- `Decrypt` returns plaintext and a nil error for `s` under `keyring`. -/
def decryptSucceeds (aesDecrypt : List Byte → List Byte → List Byte) (s : GoString)
    (keyring : List Byte) : Bool :=
  match Decrypt aesDecrypt s keyring with
  | .ret (_, none) => true
  | _ => false

/-! ## `pkg/utils/util.go`: `Run`, `RunWithFilter` -/

/-- Go `Run(cmd)`. `Sh cmd` stands for `exec.Command("sh", "-c", cmd)` with
`CombinedOutput`: the combined output and the error. -/
def Run (Sh : GoString → GoString × GoError) (cmd : GoString) : GoString × GoError :=
  match Sh cmd with
  | (out, some err) =>
    ([], some (str "Failed to run cmd: " ++ cmd ++ str ", with out: " ++ out ++
      str ", with error: " ++ err))
  | (out, none) => (out, none)

/-- The inner loop of `RunWithFilter` over `filter`, from `find := true`: a
filter string that `stdout` does not contain sets `find = false`. -/
def findAll (stdout : GoString) (filter : List GoString) : Bool :=
  filter.foldl (fun find f => if ¬ Contains stdout f then false else find) true

/-- Go `RunWithFilter(cmd, filter...)`; on an error of `Run` the slice
returned is `nil`. -/
def RunWithFilter (Sh : GoString → GoString × GoError) (cmd : GoString)
    (filter : List GoString) : List GoString × GoError :=
  match Run Sh cmd with
  | (_, some err) => ([], some err)
  | (stdout, none) =>
    let stdoutArr := Split stdout 10
    (stdoutArr.foldl (fun ans line => if findAll line filter then ans ++ [line] else ans) [],
     none)

/-! ## `pkg/oss/utils.go` -/

/-- Go conversion `rune(n)` of a non-negative `int`: the low 32 bits, read
as a signed number. -/
def toRune (n : Nat) : Int :=
  if n % 4294967296 < 2147483648 then (n % 4294967296 : Nat)
  else (n % 4294967296 : Nat) - 4294967296

/-- Go conversion `string(r)` of a rune: the UTF-8 encoding of the code point
`r`, and of U+FFFD when `r` is not a valid code point. -/
def runeString (r : Int) : GoString :=
  if r < 0 ∨ 1114111 < r ∨ (55296 ≤ r ∧ r ≤ 57343) then [239, 191, 189]
  else
    let n := r.toNat
    if n < 128 then [n]
    else if n < 2048 then [192 + n / 64, 128 + n % 64]
    else if n < 65536 then [224 + n / 4096, 128 + n / 64 % 64, 128 + n % 64]
    else [240 + n / 262144, 128 + n / 4096 % 64, 128 + n / 64 % 64, 128 + n % 64]

/-- Go `IsLastSharedVol(pvName)`. The constant `NsenterCmd` of package `oss`
is declared in a file that is not part of the sources at hand, so it is a
parameter. -/
def IsLastSharedVol (NsenterCmd : GoString) (Sh : GoString → GoString × GoError)
    (pvName : GoString) : GoString × GoError :=
  let keyStr := str "volumes/kubernetes.io~csi/" ++ pvName ++ str "/mount"
  let checkMountCountCmd := NsenterCmd ++ str " mount"
  match RunWithFilter Sh checkMountCountCmd [keyStr, str "fuse.ossfs"] with
  | (_, some err) => (str "0", some err)
  | (out, none) => (runeString (toRune out.length), none)

/-- What `http.Get` hands to `GetMetaData`: an error, or a response with its
status code and with what `ioutil.ReadAll(resp.Body)` will return. -/
inductive HttpResult where
  | failed (err : GoString)
  | response (statusCode : Nat) (body : GoString) (readErr : GoError)
  deriving DecidableEq, Repr

/-- Go constant `MetadataURL`. -/
def MetadataURL : GoString := str "http://100.100.100.200/latest/meta-data/"

/-- Go `GetMetaData(resource)`; `Get url` stands for `http.Get(url)`. The
status code of the response is not looked at. -/
def GetMetaData (Get : GoString → HttpResult) (resource : GoString) : GoString :=
  match Get (MetadataURL ++ resource) with
  | .failed _ => []
  | .response _ _ (some _) => []
  | .response _ body none => body

/-! ## The expiry block of `getManagedToken` -/

/-- The two `log.Errorf` lines of the expiry block. -/
inductive ExpiryLog where
  | parseExpirationError
  | invalidTokenExpired
  deriving DecidableEq, Repr

/-- Seconds from the Unix epoch to Go's zero `time.Time` (January 1, year 1,
UTC), the value `time.Parse` returns beside an error. -/
def zeroTime : Int := -62135596800

/-- The expiry block of `getManagedToken`: `t, err := time.Parse(layout,
akInfo.Expiration)`, a log line if `err != nil`, a log line if
`t.Before(time.Now())`. `Parse` stands for `time.Parse` with the layout
`2006-01-02T15:04:05Z`, times are counted from the Unix epoch. The block
assigns nothing but `t` and `err` and returns nothing: the log lines are all
it produces. -/
def expiryBlock (Parse : GoString → Option Int) (now : Int) (expiration : GoString) :
    List ExpiryLog :=
  let t := (Parse expiration).getD zeroTime
  (if (Parse expiration).isNone then [ExpiryLog.parseExpirationError] else []) ++
  (if t < now then [ExpiryLog.invalidTokenExpired] else [])

/-- Go `getManagedToken()` with the clock and the expiry log lines made
explicit: the value returned, and the lines the expiry block logged on the way
(the block is reached once the three base fields decrypted). -/
def getManagedTokenAt (Parse : GoString → Option Int) (now : Int)
    (aesDecrypt : List Byte → List Byte → List Byte) :
    ConfigFile → GoResult (ManageTokens × List ExpiryLog)
  | .absent => .ret ({}, [])
  | .unreadable _ => .ret ({}, [])
  | .malformed _ => .ret ({}, [])
  | .parsed akInfo =>
    let keyring := akInfo.Keyring
    match Decrypt aesDecrypt akInfo.AccessKeyID keyring with
    | .panicked p => .panicked p
    | .ret (_, some _) => .ret ({}, [])
    | .ret (ak, none) =>
      match Decrypt aesDecrypt akInfo.AccessKeySecret keyring with
      | .panicked p => .panicked p
      | .ret (_, some _) => .ret ({}, [])
      | .ret (sk, none) =>
        match Decrypt aesDecrypt akInfo.SecurityToken keyring with
        | .panicked p => .panicked p
        | .ret (_, some _) => .ret ({}, [])
        | .ret (token, none) =>
          let logged := expiryBlock Parse now akInfo.Expiration
          if akInfo.RoleAccessKeyID ≠ [] ∧ akInfo.RoleAccessKeySecret ≠ [] then
            match Decrypt aesDecrypt akInfo.RoleAccessKeyID keyring with
            | .panicked p => .panicked p
            | .ret (_, some _) => .ret ({}, logged)
            | .ret (roleAK, none) =>
              match Decrypt aesDecrypt akInfo.RoleAccessKeySecret keyring with
              | .panicked p => .panicked p
              | .ret (_, some _) => .ret ({}, logged)
              | .ret (roleSK, none) =>
                .ret ({ AccessKeyID := ak, AccessKeySecret := sk, SecurityToken := token,
                        RoleAccessKeyID := roleAK, RoleAccessKeySecret := roleSK,
                        RoleArn := akInfo.RoleArn }, logged)
          else
            .ret ({ AccessKeyID := ak, AccessKeySecret := sk, SecurityToken := token,
                    RoleArn := akInfo.RoleArn }, logged)

/-- The value a call returns, without the log lines. -/
def returned {α β : Type} : GoResult (α × β) → GoResult α
  | .ret (a, _) => .ret a
  | .panicked p => .panicked p

/-! ## The encrypting side, for the round trip -/

/-- Modelled from the spec: the alphabet of standard base64, from a six-bit
value to its character (`A-Z`, `a-z`, `0-9`, `+`, `/`). -/
def encodeStd (v : Nat) : Byte :=
  if v < 26 then 65 + v
  else if v < 52 then 97 + (v - 26)
  else if v < 62 then 48 + (v - 52)
  else if v = 62 then 43
  else 47

/-- Modelled from the spec: standard base64 with `=` padding
(`base64.StdEncoding.EncodeToString`), three bytes to four characters. -/
def EncodeToString : List Byte → GoString
  | [] => []
  | [a] => [encodeStd (a / 4), encodeStd (a % 4 * 16), 61, 61]
  | [a, b] => [encodeStd (a / 4), encodeStd (a % 4 * 16 + b / 16), encodeStd (b % 16 * 4), 61]
  | a :: b :: c :: rest =>
    encodeStd (a / 4) :: encodeStd (a % 4 * 16 + b / 16) ::
      encodeStd (b % 16 * 4 + c / 64) :: encodeStd (c % 64) :: EncodeToString rest

/-- Modelled from the spec: PKCS#5 padding to a multiple of `blockSize`, with
`blockSize - len % blockSize` bytes of that value (a whole block of padding
when the length is already a multiple). -/
def PKCS5Padding (data : List Byte) (blockSize : Nat) : List Byte :=
  data ++ List.replicate (blockSize - data.length % blockSize)
    (blockSize - data.length % blockSize)

/-- Modelled from the spec: the block loop of CBC encryption, for `n` blocks
of 16 bytes: each ciphertext block is the block encryption of the plaintext
block xored with the ciphertext block before it (the IV for the first). -/
def cbcEncryptLoop (enc : List Byte → List Byte) : Nat → List Byte → List Byte → List Byte
  | 0, _, _ => []
  | n + 1, prev, src =>
    enc (xorBytes (src.take 16) prev) ++
      cbcEncryptLoop enc n (enc (xorBytes (src.take 16) prev)) (src.drop 16)

/-- Modelled from the spec: the encryption `Decrypt` undoes, the base64 text of
the IV followed by the AES-CBC encryption, under `keyring` and `iv`, of the
PKCS#5-padded plaintext. `aesEncrypt key block` is the AES block encryption. -/
def Encrypt (aesEncrypt : List Byte → List Byte → List Byte) (iv plain keyring : List Byte) :
    GoString :=
  EncodeToString (iv ++
    cbcEncryptLoop (aesEncrypt keyring) ((PKCS5Padding plain 16).length / 16) iv
      (PKCS5Padding plain 16))

/-- A list of byte values: every entry is below 256. -/
def isBytes (l : List Byte) : Bool := l.all (fun b => decide (b < 256))

/-- Modelled from the spec: what the round trip asks of the AES block
primitive under one key, `enc` and `dec` being the block encryption and
decryption: on a block of 16 byte values, `enc` yields 16 byte values and `dec`
undoes it. -/
def IsBlockCipher (enc dec : List Byte → List Byte) : Prop :=
  ∀ b : List Byte, b.length = 16 → (∀ x ∈ b, x < 256) →
    (enc b).length = 16 ∧ (∀ x ∈ enc b, x < 256) ∧ dec (enc b) = b

/-! ## Facts about the string helpers -/

theorem HasPrefix_iff (s p : GoString) : HasPrefix s p = true ↔ p <+: s := by
  unfold HasPrefix
  exact List.isPrefixOf_iff_prefix

theorem Contains_iff (s sub : GoString) : Contains s sub = true ↔ sub <:+: s := by
  induction s with
  | nil =>
    rw [Contains, HasPrefix_iff]
    constructor
    · intro h; exact h.isInfix
    · intro h
      have : sub = [] := List.eq_nil_of_infix_nil h
      subst this; exact List.prefix_refl _
  | cons c cs ih =>
    rw [Contains, Bool.or_eq_true, HasPrefix_iff, ih, List.infix_cons_iff]

theorem Contains_singleton (s : GoString) (c : Byte) : Contains s [c] = true ↔ c ∈ s := by
  rw [Contains_iff]
  constructor
  · intro h
    exact h.subset (List.mem_singleton_self c)
  · intro h
    obtain ⟨a, b, rfl⟩ := List.append_of_mem h
    exact ⟨a, b, by simp⟩

theorem Split_ne_nil (s : GoString) (sep : Byte) : Split s sep ≠ [] := by
  cases s with
  | nil => simp [Split]
  | cons c cs =>
    unfold Split
    split
    · simp
    · split <;> simp

theorem Split_head_le (s : GoString) (sep : Byte) (t : GoString) (ts : List GoString)
    (h : Split s sep = t :: ts) : t <+: s := by
  induction s generalizing t ts with
  | nil =>
    simp only [Split] at h
    obtain ⟨rfl, -⟩ := List.cons.inj h
    exact List.nil_prefix
  | cons c cs ih =>
    unfold Split at h
    split at h
    · obtain ⟨rfl, -⟩ := List.cons.inj h
      exact List.nil_prefix
    · split at h
      · rename_i heq
        exact absurd heq (Split_ne_nil cs sep)
      · rename_i t0 ts0 heq
        obtain ⟨rfl, -⟩ := List.cons.inj h
        exact (List.prefix_cons_inj c).mpr (ih t0 ts0 heq)

theorem mem_Split_within (s : GoString) (sep : Byte) (t : GoString)
    (h : t ∈ Split s sep) : t <:+: s := by
  induction s generalizing t with
  | nil =>
    simp [Split] at h
    subst h; exact List.nil_infix
  | cons c cs ih =>
    unfold Split at h
    split at h
    · rcases List.mem_cons.mp h with h1 | h1
      · subst h1; exact List.nil_infix
      · exact (List.infix_cons_iff).mpr (Or.inr (ih t h1))
    · split at h
      · rename_i heq
        exact absurd heq (Split_ne_nil cs sep)
      · rename_i t0 ts0 heq
        rcases List.mem_cons.mp h with h1 | h1
        · subst h1
          exact ((List.prefix_cons_inj c).mpr (Split_head_le cs sep t0 ts0 heq)).isInfix
        · have : t ∈ Split cs sep := by rw [heq]; exact List.mem_cons_of_mem _ h1
          exact (List.infix_cons_iff).mpr (Or.inr (ih t this))

/-! ## `ValidateRun`, `CheckCmd`, `CheckCmdArgs` -/

theorem listedMetachars_subset : ∀ b ∈ listedMetachars, b ∈ cmdRegexp := by decide

theorem cmdRegexp_cases : ∀ b ∈ cmdRegexp, b = 43 ∨ b ∈ listedMetachars := by decide

theorem MatchString_of_hasListedMetachar (s : GoString) (h : hasListedMetachar s = true) :
    MatchString s = true := by
  unfold hasListedMetachar at h
  unfold MatchString
  rw [List.any_eq_true] at h ⊢
  obtain ⟨b, hb, hmem⟩ := h
  exact ⟨b, hb, decide_eq_true (listedMetachars_subset b (of_decide_eq_true hmem))⟩

/-- What `MatchString` matches: the listed metacharacters together with `+`. -/
theorem MatchString_iff (s : GoString) :
    MatchString s = true ↔ (hasListedMetachar s = true ∨ 43 ∈ s) := by
  unfold hasListedMetachar MatchString
  simp only [List.any_eq_true, decide_eq_true_eq]
  constructor
  · rintro ⟨b, hb, hmem⟩
    rcases cmdRegexp_cases b hmem with h43 | hl
    · right; rw [← h43]; exact hb
    · exact Or.inl ⟨b, hb, hl⟩
  · rintro (⟨b, hb, hmem⟩ | h)
    · exact ⟨b, hb, listedMetachars_subset b hmem⟩
    · exact ⟨43, h, by decide⟩

/-- The error of `CheckCmdArgs` names the first argument that matches `cmdRegexp`. -/
theorem CheckCmdArgs_eq_find (cmd : GoString) (args : List GoString) :
    CheckCmdArgs cmd args =
      (args.find? MatchString).map (fun element =>
        str "Command " ++ cmd ++ str " has illegal access, args:" ++ element ++ str ".") := by
  induction args with
  | nil => rfl
  | cons a rest ih =>
    rw [CheckCmdArgs, List.find?_cons]
    cases h : MatchString a
    · simp [ih]
    · simp

theorem CheckCmdArgs_eq_none_iff (cmd : GoString) (args : List GoString) :
    CheckCmdArgs cmd args = none ↔ ∀ a ∈ args, MatchString a = false := by
  rw [CheckCmdArgs_eq_find, Option.map_eq_none', List.find?_eq_none]
  simp

/-- A message built around the whole command line contains every token of it. -/
theorem Contains_cmd_message (pre post cmd t : GoString) (h : t <:+: cmd) :
    Contains (pre ++ cmd ++ post) t = true := by
  rw [Contains_iff]
  obtain ⟨a, b, rfl⟩ := h
  exact ⟨pre ++ a, b ++ post, by simp [List.append_assoc]⟩

theorem ValidateRun_of_split (Exec : GoString → List GoString → GoString × GoError)
    (cmd name : GoString) (rest : List GoString) (hsplit : Split cmd 32 = name :: rest) :
    ValidateRun Exec cmd =
      match CheckCmd cmd name with
      | some e => .ret ([], some e)
      | none =>
        match CheckCmdArgs cmd rest with
        | some e => .ret ([], some e)
        | none =>
          match Exec name rest with
          | (stdout, some e) =>
            .ret ([], some (str "Failed to exec command:" ++ cmd ++ str ", name:" ++ name ++
              str ", args:" ++ fmtStrings rest ++ str ", stdout:" ++ stdout ++
              str ", stderr:" ++ e))
          | (stdout, none) => .ret (stdout, none) := by
  unfold ValidateRun
  rw [hsplit]
  cases rest with
  | nil => simp [CheckCmdArgs]
  | cons a as => simp

/-- C1: a command line whose leading token `strings.Split(cmd, " ")[0]` is not
in the allow-set is rejected by `CheckCmd`: `ValidateRun` returns `("", err)`
with the error of `CheckCmd`, whatever follows the leading token and whatever
the command runner would do, so the runner is not reached. -/
theorem ValidateRun_rejects_unlisted_command
    (Exec : GoString → List GoString → GoString × GoError) (cmd : GoString)
    (hname : (Split cmd 32).headD [] ∉ cmdSet) :
    ValidateRun Exec cmd =
      .ret ([], some (str "Command " ++ cmd ++ str " has illegal access, base command:" ++
        (Split cmd 32).headD [] ++ str ".")) ∧
    ValidateRun Exec cmd = .ret ([], CheckCmd cmd ((Split cmd 32).headD [])) ∧
    (CheckCmd cmd ((Split cmd 32).headD [])).isSome = true := by
  cases hsplit : Split cmd 32 with
  | nil => exact absurd hsplit (Split_ne_nil cmd 32)
  | cons name rest =>
    rw [hsplit] at hname
    simp only [List.headD_cons] at hname ⊢
    rw [ValidateRun_of_split Exec cmd name rest hsplit]
    simp [CheckCmd, hname]

/-- C1 at `rm -rf /`, at the empty command line and at a command line that
starts with a space. -/
theorem ValidateRun_rejects_unlisted_command_witness :
    ((Split (str "rm -rf /") 32).headD [] ∉ cmdSet ∧
      ValidateRun (fun _ _ => (str "ran", none)) (str "rm -rf /") =
        .ret ([], some (str "Command rm -rf / has illegal access, base command:rm."))) ∧
    ((Split (str "") 32).headD [] ∉ cmdSet ∧
      ValidateRun (fun _ _ => (str "ran", none)) (str "") =
        .ret ([], some (str "Command  has illegal access, base command:."))) ∧
    ((Split (str " mount") 32).headD [] ∉ cmdSet ∧
      ValidateRun (fun _ _ => (str "ran", none)) (str " mount") =
        .ret ([], some (str "Command  mount has illegal access, base command:."))) :=
  ⟨⟨by decide, (ValidateRun_rejects_unlisted_command _ (str "rm -rf /") (by decide)).1⟩,
   ⟨by decide, (ValidateRun_rejects_unlisted_command _ (str "") (by decide)).1⟩,
   ⟨by decide, (ValidateRun_rejects_unlisted_command _ (str " mount") (by decide)).1⟩⟩

/-- C2: when the leading token is in the allow-set and some later token holds a
listed metacharacter, `CheckCmdArgs` returns a non-nil error, `ValidateRun`
returns `("", that error)` without reaching the command runner, and the error
text contains the first such token. -/
theorem ValidateRun_rejects_metachar_argument
    (Exec : GoString → List GoString → GoString × GoError) (cmd name t : GoString)
    (args : List GoString) (hsplit : Split cmd 32 = name :: args) (hname : name ∈ cmdSet)
    (ht : args.find? hasListedMetachar = some t) :
    ∃ e, CheckCmdArgs cmd args = some e ∧ ValidateRun Exec cmd = .ret ([], some e) ∧
      Contains e t = true := by
  have htmem : t ∈ args := List.mem_of_find?_eq_some ht
  have htbad : hasListedMetachar t = true := List.find?_some ht
  have hmatch : MatchString t = true := MatchString_of_hasListedMetachar t htbad
  have hcmd : t <:+: cmd :=
    mem_Split_within cmd 32 t (by rw [hsplit]; exact List.mem_cons_of_mem _ htmem)
  cases hfind : args.find? MatchString with
  | none =>
    rw [List.find?_eq_none] at hfind
    exact absurd hmatch (hfind t htmem)
  | some element =>
    have hargs : CheckCmdArgs cmd args = some (str "Command " ++ cmd ++
        str " has illegal access, args:" ++ element ++ str ".") := by
      rw [CheckCmdArgs_eq_find, hfind]; rfl
    refine ⟨_, hargs, ?_, ?_⟩
    · rw [ValidateRun_of_split Exec cmd name args hsplit, hargs]
      simp [CheckCmd, hname]
    · have := Contains_cmd_message (str "Command ") (str " has illegal access, args:" ++
        element ++ str ".") cmd t hcmd
      simpa [List.append_assoc] using this

/-- C2 at `mount -o a$b /mnt`. -/
theorem ValidateRun_rejects_metachar_argument_witness :
    ∃ e, CheckCmdArgs (str "mount -o a$b /mnt") [str "-o", str "a$b", str "/mnt"] = some e ∧
      ValidateRun (fun _ _ => (str "ran", none)) (str "mount -o a$b /mnt") = .ret ([], some e) ∧
      Contains e (str "a$b") = true :=
  ValidateRun_rejects_metachar_argument _ (str "mount -o a$b /mnt") (str "mount") (str "a$b")
    [str "-o", str "a$b", str "/mnt"] (by decide) (by decide) (by decide)

/-! ## `CheckRequestArgs`, `CheckRequest` -/

theorem requestValueIllegal_iff (value : GoString) :
    requestValueIllegal value = true ↔ ∃ b ∈ value, b ∈ requestDenylist := by
  have e1 : str "&" = [38] := rfl
  have e2 : str "|" = [124] := rfl
  have e3 : str ";" = [59] := rfl
  have e4 : str "$" = [36] := rfl
  have e5 : str "(" = [40] := rfl
  have e6 : str ")" = [41] := rfl
  unfold requestValueIllegal requestDenylist
  rw [e1, e2, e3, e4, e5, e6]
  simp only [Bool.or_eq_true, Contains_singleton, List.mem_cons, List.mem_singleton,
    List.not_mem_nil, or_false]
  constructor
  · intro h
    rcases h with (((((((h | h) | h) | h) | h) | h) | h) | h)
    all_goals first
      | exact ⟨_, h, by simp⟩
  · rintro ⟨b, hb, hmem⟩
    rcases hmem with h | h | h | h | h | h | h | h <;> subst h <;> simp [hb]

theorem checkRequestArgs_fold (m : List (GoString × GoString)) (st : Bool × GoString) :
    st.2 <+: (m.foldl checkRequestArgsStep st).2 ∧
    (st.1 = false → (m.foldl checkRequestArgsStep st).1 = false) ∧
    (∀ kv ∈ m, requestValueIllegal kv.2 = true →
      (m.foldl checkRequestArgsStep st).1 = false ∧
      kv.2 <:+: (m.foldl checkRequestArgsStep st).2) := by
  induction m generalizing st with
  | nil => exact ⟨List.prefix_refl _, fun h => h, fun kv hkv => absurd hkv (List.not_mem_nil kv)⟩
  | cons x xs ih =>
    rw [List.foldl_cons]
    obtain ⟨hpre, hfalse, hmem⟩ := ih (checkRequestArgsStep st x)
    have hstep_pre : st.2 <+: (checkRequestArgsStep st x).2 := by
      unfold checkRequestArgsStep
      split
      · exact List.prefix_append _ _
      · exact List.prefix_refl _
    have hstep_false : st.1 = false → (checkRequestArgsStep st x).1 = false := by
      intro h
      unfold checkRequestArgsStep
      split
      · rfl
      · exact h
    refine ⟨hstep_pre.trans hpre, fun h => hfalse (hstep_false h), ?_⟩
    intro kv hkv hbad
    rcases List.mem_cons.mp hkv with h | h
    · subst h
      have h1 : (checkRequestArgsStep st kv).1 = false := by
        unfold checkRequestArgsStep; rw [if_pos hbad]
      have h2 : kv.2 <:+: (checkRequestArgsStep st kv).2 := by
        unfold checkRequestArgsStep; rw [if_pos hbad]
        exact ⟨st.2 ++ str "Args ", str " has illegal access.", by simp [List.append_assoc]⟩
      exact ⟨hfalse h1, h2.trans hpre.isInfix⟩
    · exact hmem kv h hbad

/-- When every value passes the test of `CheckRequestArgs`, the loop leaves
its state untouched. -/
theorem checkRequestArgs_fold_clean (m : List (GoString × GoString)) (st : Bool × GoString)
    (h : ∀ kv ∈ m, requestValueIllegal kv.2 = false) :
    m.foldl checkRequestArgsStep st = st := by
  induction m generalizing st with
  | nil => rfl
  | cons x xs ih =>
    rw [List.foldl_cons]
    have hx : checkRequestArgsStep st x = st := by
      unfold checkRequestArgsStep
      rw [h x (List.mem_cons_self _ _)]
      rfl
    rw [hx]
    exact ih st (fun kv hkv => h kv (List.mem_cons_of_mem _ hkv))

/-- C3, as the claim states it, fails: the value `a<b` holds the listed
character `<`, yet `CheckRequestArgs` returns `valid = true` (and
`CheckRequest` accepts the map with the path `/mnt`). -/
theorem CheckRequestArgs_accepts_angle_bracket :
    hasListedMetachar (str "a<b") = true ∧
    CheckRequestArgs [(str "k", str "a<b")] = (true, some []) ∧
    CheckRequest [(str "k", str "a<b")] (str "/mnt") = (true, none) := by
  decide

/-- C3, amended: if some value of the map holds one of `&` `|` `;` `$`
apostrophe backquote `(` `)`, then `CheckRequestArgs` returns `valid = false`
with an error whose text contains that value, whatever the iteration order, and
`CheckRequest` returns the same rejection for every path. -/
theorem CheckRequestArgs_rejects_denylisted_value (m : List (GoString × GoString))
    (key value : GoString) (hmem : (key, value) ∈ m)
    (hbad : ∃ b ∈ value, b ∈ requestDenylist) :
    ∃ e, CheckRequestArgs m = (false, some e) ∧ Contains e value = true ∧
      ∀ path, CheckRequest m path = (false, some e) := by
  have hill : requestValueIllegal value = true := (requestValueIllegal_iff value).mpr hbad
  obtain ⟨-, -, h⟩ := checkRequestArgs_fold m (true, [])
  obtain ⟨h1, h2⟩ := h (key, value) hmem hill
  refine ⟨(m.foldl checkRequestArgsStep (true, [])).2, ?_, ?_, ?_⟩
  · unfold CheckRequestArgs
    simp only [h1]
  · exact (Contains_iff _ _).mpr h2
  · intro path
    unfold CheckRequest CheckRequestArgs
    simp only [h1]
    simp

/-- C3, amended, at the map with the one entry `k ↦ a$b`. -/
theorem CheckRequestArgs_rejects_denylisted_value_witness :
    ∃ e, CheckRequestArgs [(str "k", str "a$b")] = (false, some e) ∧
      Contains e (str "a$b") = true ∧
      ∀ path, CheckRequest [(str "k", str "a$b")] path = (false, some e) :=
  CheckRequestArgs_rejects_denylisted_value [(str "k", str "a$b")] (str "k") (str "a$b")
    (by decide) ⟨36, by decide, by decide⟩

/-! ## `ValidatePath` -/

theorem Split_head_nil (s : GoString) (sep : Byte) (ts : List GoString)
    (h : Split s sep = [] :: ts) : s = [] ∨ ∃ r, s = sep :: r := by
  cases s with
  | nil => exact Or.inl rfl
  | cons c cs =>
    right
    unfold Split at h
    split at h
    · rename_i hc
      exact ⟨cs, by rw [hc]⟩
    · split at h
      · exact absurd (List.cons.inj h).1 (List.cons_ne_nil _ _)
      · exact absurd (List.cons.inj h).1 (List.cons_ne_nil _ _)

theorem Split_head_dot (p : GoString) (ts : List GoString)
    (h : Split p 47 = [46] :: ts) : p = [46] ∨ ∃ r, p = 46 :: 47 :: r := by
  cases p with
  | nil =>
    simp only [Split] at h
    exact absurd (List.cons.inj h).1 (by decide)
  | cons c cs =>
    unfold Split at h
    split at h
    · exact absurd (List.cons.inj h).1 (by decide)
    · split at h
      · rename_i heq
        exact absurd heq (Split_ne_nil cs 47)
      · rename_i t0 ts0 heq
        obtain ⟨h1, -⟩ := List.cons.inj h
        obtain ⟨hc, ht0⟩ := List.cons.inj h1
        subst hc ht0
        rcases Split_head_nil cs 47 ts0 heq with h2 | ⟨r, h2⟩
        · left; rw [h2]
        · right; exact ⟨r, by rw [h2]⟩

theorem Split_tail_dot (p : GoString) (h : [46] ∈ (Split p 47).tail) :
    [47, 46] <:+: p := by
  induction p with
  | nil => simp [Split] at h
  | cons c cs ih =>
    unfold Split at h
    split at h
    · rename_i hc
      subst hc
      simp only [List.tail_cons] at h
      cases heq : Split cs 47 with
      | nil => exact absurd heq (Split_ne_nil cs 47)
      | cons t0 ts0 =>
        rw [heq] at h
        rcases List.mem_cons.mp h with h1 | h1
        · rcases Split_head_dot cs ts0 (by rw [heq, ← h1]) with h2 | ⟨r, h2⟩
          · exact h2 ▸ List.infix_refl _
          · rw [h2]; exact ⟨[], 47 :: r, by simp⟩
        · exact List.infix_cons (ih (by rw [heq]; exact h1))
    · split at h
      · rename_i heq
        exact absurd heq (Split_ne_nil cs 47)
      · rename_i t0 ts0 heq
        simp only [List.tail_cons] at h
        exact List.infix_cons (ih (by rw [heq]; exact h))

/-- A segment `.` of a path other than the path `.` itself stands next to a
slash. -/
theorem dot_segment_adjacent_slash (path : GoString) (hseg : str "." ∈ Split path 47)
    (hne : path ≠ str ".") :
    Contains path (str "./") = true ∨ Contains path (str "/.") = true := by
  have e0 : str "." = [46] := rfl
  have e1 : str "./" = [46, 47] := rfl
  have e2 : str "/." = [47, 46] := rfl
  rw [e0] at hseg hne
  rw [e1, e2, Contains_iff, Contains_iff]
  cases heq : Split path 47 with
  | nil => exact absurd heq (Split_ne_nil path 47)
  | cons t ts =>
    rw [heq] at hseg
    rcases List.mem_cons.mp hseg with h1 | h1
    · rcases Split_head_dot path ts (by rw [heq, ← h1]) with h2 | ⟨r, h2⟩
      · exact absurd h2 hne
      · left; rw [h2]; exact ⟨[], r, by simp⟩
    · right
      exact Split_tail_dot path (by rw [heq]; exact h1)

theorem Contains_mono (s a b : GoString) (hab : a <:+: b) (h : Contains s b = true) :
    Contains s a = true := by
  rw [Contains_iff] at h ⊢
  exact hab.trans h

/-- What `ValidatePath` accepts: exactly the paths with no `..`, no `./` and
no `/.` in them. -/
theorem ValidatePath_eq (path : GoString) :
    ValidatePath path =
      if Contains path (str "..") || Contains path (str "./") || Contains path (str "/.") then
        (false, some (str "Path " ++ path ++ str " has illegal access."))
      else (true, none) := by
  have h1 : Contains path (str "../") = true → Contains path (str "..") = true :=
    Contains_mono path _ _ ⟨[], str "/", rfl⟩
  have h2 : Contains path (str "/..") = true → Contains path (str "..") = true :=
    Contains_mono path _ _ ⟨str "/", [], rfl⟩
  unfold ValidatePath
  cases ha : Contains path (str "../") <;> cases hb : Contains path (str "/..") <;>
    cases hc : Contains path (str "..") <;> cases hd : Contains path (str "./") <;>
    cases he : Contains path (str "/.") <;> simp_all

/-- C4, as the claim states it, fails: the path `.` has a segment that is
exactly `.`, yet `ValidatePath` returns `(true, nil)`. -/
theorem ValidatePath_accepts_bare_dot :
    str "." ∈ Split (str ".") 47 ∧ ValidatePath (str ".") = (true, none) := by
  decide

/-- C4, amended: a path that contains `..` anywhere, or that has a segment
exactly `.` and is not the one-character path `.`, is rejected with a non-nil
error. -/
theorem ValidatePath_rejects_traversal (path : GoString)
    (h : Contains path (str "..") = true ∨ (str "." ∈ Split path 47 ∧ path ≠ str ".")) :
    ValidatePath path = (false, some (str "Path " ++ path ++ str " has illegal access.")) := by
  rw [ValidatePath_eq]
  rcases h with h | ⟨hseg, hne⟩
  · simp [h]
  · rcases dot_segment_adjacent_slash path hseg hne with h | h <;> simp [h]

/-- C4, amended, at `/var/lib/../../etc` and at `/a/./b`. -/
theorem ValidatePath_rejects_traversal_witness :
    (Contains (str "/var/lib/../../etc") (str "..") = true ∧
      ValidatePath (str "/var/lib/../../etc") =
        (false, some (str "Path /var/lib/../../etc has illegal access."))) ∧
    ((str "." ∈ Split (str "/a/./b") 47 ∧ str "/a/./b" ≠ str ".") ∧
      ValidatePath (str "/a/./b") = (false, some (str "Path /a/./b has illegal access."))) :=
  ⟨⟨by decide, ValidatePath_rejects_traversal (str "/var/lib/../../etc") (Or.inl (by decide))⟩,
   ⟨by decide, ValidatePath_rejects_traversal (str "/a/./b") (Or.inr (by decide))⟩⟩

/-- C6, as the claim states it, fails: `/.hidden` holds no listed
metacharacter, no `..` and no segment equal to `.`, yet `ValidatePath` rejects
it. -/
theorem ValidatePath_rejects_hidden_file :
    hasListedMetachar (str "/.hidden") = false ∧
    Contains (str "/.hidden") (str "..") = false ∧
    str "." ∉ Split (str "/.hidden") 47 ∧
    ValidatePath (str "/.hidden") =
      (false, some (str "Path /.hidden has illegal access.")) := by
  decide

/-- C6, amended: a path with none of the listed metacharacters, no `..`, no
`./` and no `/.` is accepted: `ValidatePath` returns `(true, nil)`. (The
metacharacter condition plays no part: `ValidatePath` does not look at
them.) -/
theorem ValidatePath_accepts_clean_path (path : GoString)
    (_hmeta : hasListedMetachar path = false)
    (hdd : Contains path (str "..") = false)
    (hds : Contains path (str "./") = false)
    (hsd : Contains path (str "/.") = false) :
    ValidatePath path = (true, none) := by
  rw [ValidatePath_eq, hdd, hds, hsd]
  rfl

/-- C6, amended, at `/var/lib/kubelet/pods`. -/
theorem ValidatePath_accepts_clean_path_witness :
    ValidatePath (str "/var/lib/kubelet/pods") = (true, none) :=
  ValidatePath_accepts_clean_path (str "/var/lib/kubelet/pods")
    (by decide) (by decide) (by decide) (by decide)

/-! ## `ValidateRun`, commands that pass -/

/-- C5, as the claim states it, fails: `mount a+b` has an allowed leading
token and no listed metacharacter in its argument, yet `CheckCmdArgs` rejects
it, because `cmdRegexp` also holds `+`. -/
theorem ValidateRun_rejects_plus :
    Split (str "mount a+b") 32 = [str "mount", str "a+b"] ∧
    str "mount" ∈ cmdSet ∧
    hasListedMetachar (str "a+b") = false ∧
    ValidateRun (fun _ _ => (str "ran", none)) (str "mount a+b") =
      .ret ([], some (str "Command mount a+b has illegal access, args:a+b.")) := by
  decide

/-- C5, amended: when the leading token is in the allow-set and no later
token holds a listed metacharacter or a `+`, `CheckCmd` and `CheckCmdArgs`
report no error and `ValidateRun` goes on to run the command: its result is
the runner's, on the leading token and the later tokens. -/
theorem ValidateRun_accepts_clean_command
    (Exec : GoString → List GoString → GoString × GoError) (cmd name : GoString)
    (args : List GoString) (hsplit : Split cmd 32 = name :: args) (hname : name ∈ cmdSet)
    (hclean : ∀ a ∈ args, hasListedMetachar a = false ∧ 43 ∉ a) :
    CheckCmd cmd name = none ∧ CheckCmdArgs cmd args = none ∧
    ValidateRun Exec cmd =
      .ret (match Exec name args with
        | (stdout, some e) =>
          ([], some (str "Failed to exec command:" ++ cmd ++ str ", name:" ++ name ++
            str ", args:" ++ fmtStrings args ++ str ", stdout:" ++ stdout ++
            str ", stderr:" ++ e))
        | (stdout, none) => (stdout, none)) := by
  have h1 : CheckCmd cmd name = none := by simp [CheckCmd, hname]
  have h2 : CheckCmdArgs cmd args = none := by
    rw [CheckCmdArgs_eq_none_iff]
    intro a ha
    cases hm : MatchString a with
    | false => rfl
    | true =>
      rcases (MatchString_iff a).mp hm with h | h
      · exact absurd ((hclean a ha).1.symm.trans h) (by decide)
      · exact absurd h (hclean a ha).2
  refine ⟨h1, h2, ?_⟩
  rw [ValidateRun_of_split Exec cmd name args hsplit, h1, h2]
  rcases Exec name args with ⟨stdout, _ | e⟩ <;> rfl

/-- C5, amended, at `mount -t nfs host:/share /mnt`, with a runner that
succeeds. -/
theorem ValidateRun_accepts_clean_command_witness :
    CheckCmd (str "mount -t nfs host:/share /mnt") (str "mount") = none ∧
    CheckCmdArgs (str "mount -t nfs host:/share /mnt")
      [str "-t", str "nfs", str "host:/share", str "/mnt"] = none ∧
    ValidateRun (fun _ _ => (str "ran", none)) (str "mount -t nfs host:/share /mnt") =
      .ret (str "ran", none) :=
  ValidateRun_accepts_clean_command (fun _ _ => (str "ran", none))
    (str "mount -t nfs host:/share /mnt") (str "mount")
    [str "-t", str "nfs", str "host:/share", str "/mnt"] (by decide) (by decide) (by decide)

/-! ## `ConnectorRun` -/

/-- Dial and write failures end `ConnectorRun` with the transport error
itself, as output text and as error. -/
theorem ConnectorRun_dial_write_error (c : Connector) (cmd e : GoString) :
    (c.Dial = some e → ConnectorRun c cmd = .ret (e, some e)) ∧
    (c.Dial = none → c.Write cmd = some e → ConnectorRun c cmd = .ret (e, some e)) := by
  constructor
  · intro h; simp [ConnectorRun, h]
  · intro h1 h2; simp [ConnectorRun, h1, h2]

/-- Parsing of the reply once dial and write succeeded, for every reply other
than the seven bytes `Success`. -/
theorem ConnectorRun_parse (c : Connector) (cmd : GoString) (hd : c.Dial = none)
    (hw : c.Write cmd = none) (hne : (c.Read cmd).1 ≠ str "Success") :
    ConnectorRun c cmd =
      if HasPrefix (c.Read cmd).1 (str "Success") then .ret ((c.Read cmd).1.drop 8, none)
      else .ret ((c.Read cmd).1, some (str "Exec command error:" ++ (c.Read cmd).1)) := by
  simp only [ConnectorRun, hd, hw]
  split
  · rename_i hp
    obtain ⟨t, ht⟩ := (HasPrefix_iff _ _).mp hp
    have hlen : 8 ≤ ((c.Read cmd).1).length := by
      cases t with
      | nil => exact absurd (by simpa using ht.symm) hne
      | cons a as =>
        rw [← ht]
        simp [str]
    simp [sliceFrom, hlen]
  · rfl

/-- C7: the reply `Success`, seven bytes long, begins with the literal
`Success`; `ConnectorRun` then evaluates `response[8:]` and panics with a
slice bound out of range instead of returning. The reply `Success:ok, mounted`
yields `ok, mounted` and an empty reply yields the error `Exec command
error:`. -/
theorem ConnectorRun_bare_Success_panics :
    ConnectorRun ⟨none, fun _ => none, fun _ => (str "Success", none)⟩ (str "mount") =
      .panicked .sliceBoundsOutOfRange ∧
    ConnectorRun ⟨none, fun _ => none, fun _ => (str "Success:ok, mounted", none)⟩ (str "mount") =
      .ret (str "ok, mounted", none) ∧
    ConnectorRun ⟨none, fun _ => none, fun _ => (str "", none)⟩ (str "mount") =
      .ret (str "", some (str "Exec command error:")) := by
  decide

/-- C8: a failed read is not surfaced. With no byte read and the read error
`connection reset by peer`, `ConnectorRun` returns the error `Exec command
error:`, which does not contain the transport error's text; with the bytes
`Success:ok` read and the same read error, it returns `ok` and a nil error. -/
theorem ConnectorRun_read_error_dropped :
    ConnectorRun ⟨none, fun _ => none, fun _ => (str "", some (str "connection reset by peer"))⟩
        (str "mount") = .ret (str "", some (str "Exec command error:")) ∧
    Contains (str "Exec command error:") (str "connection reset by peer") = false ∧
    ConnectorRun ⟨none, fun _ => none,
        fun _ => (str "Success:ok", some (str "connection reset by peer"))⟩
        (str "mount") = .ret (str "ok", none) := by
  decide

/-! ## `Decrypt` and `getManagedToken` -/

theorem decryptFails_iff (aes : List Byte → List Byte → List Byte) (s : GoString)
    (k : List Byte) :
    decryptFails aes s k = true ↔ ∃ d e, Decrypt aes s k = .ret (d, some e) := by
  unfold decryptFails
  constructor
  · intro h
    split at h
    · rename_i d e heq; exact ⟨d, e, heq⟩
    · exact absurd h (by decide)
  · rintro ⟨d, e, heq⟩
    rw [heq]

theorem decryptSucceeds_iff (aes : List Byte → List Byte → List Byte) (s : GoString)
    (k : List Byte) :
    decryptSucceeds aes s k = true ↔ ∃ d, Decrypt aes s k = .ret (d, none) := by
  unfold decryptSucceeds
  constructor
  · intro h
    split at h
    · rename_i d heq; exact ⟨d, heq⟩
    · exact absurd h (by decide)
  · rintro ⟨d, heq⟩
    rw [heq]

/-- An input that is not valid base64 makes `Decrypt` return the decoder's
error. -/
theorem Decrypt_base64_error (aes : List Byte → List Byte → List Byte) (s : GoString)
    (k d e : List Byte) (h : DecodeString s = (d, some e)) :
    Decrypt aes s k = .ret ([], some e) := by
  simp [Decrypt, h]

/-- A keyring that is not 16, 24 or 32 bytes long makes `Decrypt` return the
key-size error, once the input decoded. -/
theorem Decrypt_key_error (aes : List Byte → List Byte → List Byte) (s : GoString)
    (k d : List Byte) (h : DecodeString s = (d, none))
    (hk : ¬ (k.length = 16 ∨ k.length = 24 ∨ k.length = 32)) :
    Decrypt aes s k = .ret ([], some (str "crypto/aes: invalid key size " ++ Itoa k.length)) := by
  simp only [Decrypt, h, NewCipher, if_neg hk]

/-- Decoded ciphertext shorter than one block, under a valid key: `Decrypt`
panics, on the slice `cdata[:blockSize]` or on `make`. -/
theorem Decrypt_short_panics (aes : List Byte → List Byte → List Byte) (s : GoString)
    (k d : List Byte) (h : DecodeString s = (d, none))
    (hk : k.length = 16 ∨ k.length = 24 ∨ k.length = 32) (hd : d.length < 16) :
    Decrypt aes s k = .panicked .sliceBoundsOutOfRange ∨
    Decrypt aes s k = .panicked .makesliceLenOutOfRange := by
  simp only [Decrypt, h, NewCipher, if_pos hk]
  by_cases hc : DecodedLen s.length < 16
  · left; simp [hc]
  · right; simp [hc, hd]

/-- Decoded ciphertext of at least one block that is not a whole number of
blocks, under a valid key: `CryptBlocks` panics. -/
theorem Decrypt_ragged_panics (aes : List Byte → List Byte → List Byte) (s : GoString)
    (k d : List Byte) (h : DecodeString s = (d, none))
    (hk : k.length = 16 ∨ k.length = 24 ∨ k.length = 32) (hc : 16 ≤ DecodedLen s.length)
    (hd : 16 ≤ d.length) (hr : d.length % 16 ≠ 0) :
    Decrypt aes s k = .panicked .inputNotFullBlocks := by
  have h1 : ¬ DecodedLen s.length < 16 := by omega
  have h2 : ¬ d.length < 16 := by omega
  have h3 : (d.length - 16) % 16 ≠ 0 := by omega
  simp only [Decrypt, h, NewCipher, if_pos hk, if_neg h1, if_neg h2, CryptBlocks,
    List.length_drop]
  simp [h3]

/-- C9: when the file unmarshals into `akInfo` and, in the order
`getManagedToken` decrypts the fields (access key id, access key secret,
security token, then, if both role fields are non-empty, role access key id
and role access key secret), `Decrypt` returns an error for a field after
having returned plaintext for the fields before it, `getManagedToken` returns
`ManageTokens{}`. And a bundle it returns that is not `ManageTokens{}` was
built with every decryption it needed having returned plaintext: no bundle is
partial. -/
theorem getManagedToken_empty_on_decrypt_error
    (aes : List Byte → List Byte → List Byte) (akInfo : AKInfo) :
    ((decryptFails aes akInfo.AccessKeyID akInfo.Keyring = true ∨
      (decryptSucceeds aes akInfo.AccessKeyID akInfo.Keyring = true ∧
        decryptFails aes akInfo.AccessKeySecret akInfo.Keyring = true) ∨
      (decryptSucceeds aes akInfo.AccessKeyID akInfo.Keyring = true ∧
        decryptSucceeds aes akInfo.AccessKeySecret akInfo.Keyring = true ∧
        decryptFails aes akInfo.SecurityToken akInfo.Keyring = true) ∨
      (decryptSucceeds aes akInfo.AccessKeyID akInfo.Keyring = true ∧
        decryptSucceeds aes akInfo.AccessKeySecret akInfo.Keyring = true ∧
        decryptSucceeds aes akInfo.SecurityToken akInfo.Keyring = true ∧
        (akInfo.RoleAccessKeyID ≠ [] ∧ akInfo.RoleAccessKeySecret ≠ []) ∧
        (decryptFails aes akInfo.RoleAccessKeyID akInfo.Keyring = true ∨
          (decryptSucceeds aes akInfo.RoleAccessKeyID akInfo.Keyring = true ∧
            decryptFails aes akInfo.RoleAccessKeySecret akInfo.Keyring = true)))) →
      getManagedToken aes (.parsed akInfo) = .ret {}) ∧
    (∀ tokens, getManagedToken aes (.parsed akInfo) = .ret tokens → tokens ≠ {} →
      Decrypt aes akInfo.AccessKeyID akInfo.Keyring = .ret (tokens.AccessKeyID, none) ∧
      Decrypt aes akInfo.AccessKeySecret akInfo.Keyring = .ret (tokens.AccessKeySecret, none) ∧
      Decrypt aes akInfo.SecurityToken akInfo.Keyring = .ret (tokens.SecurityToken, none) ∧
      ((akInfo.RoleAccessKeyID ≠ [] ∧ akInfo.RoleAccessKeySecret ≠ []) →
        Decrypt aes akInfo.RoleAccessKeyID akInfo.Keyring =
          .ret (tokens.RoleAccessKeyID, none) ∧
        Decrypt aes akInfo.RoleAccessKeySecret akInfo.Keyring =
          .ret (tokens.RoleAccessKeySecret, none))) := by
  constructor
  · intro h
    simp only [decryptFails_iff, decryptSucceeds_iff] at h
    unfold getManagedToken
    rcases h with ⟨d, e, h1⟩ | ⟨⟨a, h1⟩, d, e, h2⟩ | ⟨⟨a, h1⟩, ⟨b, h2⟩, d, e, h3⟩ |
      ⟨⟨a, h1⟩, ⟨b, h2⟩, ⟨c, h3⟩, hrole, h4⟩
    · simp only [h1]
    · simp only [h1, h2]
    · simp only [h1, h2, h3]
    · rcases h4 with ⟨d, e, h4⟩ | ⟨⟨r, h4⟩, d, e, h5⟩
      · simp only [h1, h2, h3, h4, if_pos hrole]
      · simp only [h1, h2, h3, h4, h5, if_pos hrole]
  · intro tokens hret hne
    unfold getManagedToken at hret
    simp only at hret
    split at hret
    · exact absurd hret (by simp)
    · exact absurd (GoResult.ret.inj hret).symm hne
    · rename_i ak h1
      split at hret
      · exact absurd hret (by simp)
      · exact absurd (GoResult.ret.inj hret).symm hne
      · rename_i sk h2
        split at hret
        · exact absurd hret (by simp)
        · exact absurd (GoResult.ret.inj hret).symm hne
        · rename_i token h3
          split at hret
          · rename_i hrole
            split at hret
            · exact absurd hret (by simp)
            · exact absurd (GoResult.ret.inj hret).symm hne
            · rename_i roleAK h4
              split at hret
              · exact absurd hret (by simp)
              · exact absurd (GoResult.ret.inj hret).symm hne
              · rename_i roleSK h5
                have := GoResult.ret.inj hret
                subst this
                exact ⟨h1, h2, h3, fun _ => ⟨h4, h5⟩⟩
          · rename_i hrole
            have := GoResult.ret.inj hret
            subst this
            exact ⟨h1, h2, h3, fun h => absurd h hrole⟩

/-- C9 at a file whose access key id decrypts (to `hello`, with the identity
standing for the block primitive) and whose access key secret `!` is not
base64. -/
theorem getManagedToken_empty_on_decrypt_error_witness :
    getManagedToken (fun _ b => b) (.parsed
      { AccessKeyID := str "AAAAAAAAAAAAAAAAAAAAAGhlbGxvCwsLCwsLCwsLCws=",
        AccessKeySecret := str "!", SecurityToken := str "", Expiration := str "",
        Keyring := str "0123456789abcdef", RoleAccessKeyID := str "",
        RoleAccessKeySecret := str "", RoleArn := str "" }) = .ret {} :=
  (getManagedToken_empty_on_decrypt_error (fun _ b => b) _).1
    (Or.inr (Or.inl ⟨by decide, by decide⟩))

/-- C10: under the valid 16-byte key `0123456789abcdef`, and whatever the AES
block primitive, `Decrypt` neither returns plaintext nor an error but panics:
on the empty string and on `AAAA` (three bytes) at the slice
`cdata[:blockSize]`, on 24 characters that decode to three bytes at `make`, on
17 decoded bytes in `CryptBlocks`, on 16 decoded bytes (the IV alone) in
`PKCS5UnPadding` at `origData[length-1]`. With the identity standing for the
block primitive, a trailing pad-length byte of 255 on a 16-byte plaintext
panics in `PKCS5UnPadding` at the slice. -/
theorem Decrypt_panics_on_malformed_ciphertext :
    (∀ aes, Decrypt aes (str "") (str "0123456789abcdef") =
      .panicked .sliceBoundsOutOfRange) ∧
    (∀ aes, Decrypt aes (str "AAAA") (str "0123456789abcdef") =
      .panicked .sliceBoundsOutOfRange) ∧
    (∀ aes, Decrypt aes (str "AAAA" ++ List.replicate 20 10) (str "0123456789abcdef") =
      .panicked .makesliceLenOutOfRange) ∧
    (∀ aes, Decrypt aes (str "AAAAAAAAAAAAAAAAAAAAAAA=") (str "0123456789abcdef") =
      .panicked .inputNotFullBlocks) ∧
    (∀ aes, Decrypt aes (str "AAAAAAAAAAAAAAAAAAAAAA==") (str "0123456789abcdef") =
      .panicked .indexOutOfRange) ∧
    Decrypt (fun _ b => b) (str "AAAAAAAAAAAAAAAAAAAAAAAAAAAAAAAAAAAAAAAAAP8=")
      (str "0123456789abcdef") = .panicked .sliceBoundsOutOfRange ∧
    PKCS5UnPadding [] = .panicked .indexOutOfRange ∧
    PKCS5UnPadding [1, 2, 200] = .panicked .sliceBoundsOutOfRange := by
  refine ⟨fun _ => rfl, fun _ => rfl, fun _ => ?_, fun _ => ?_, fun _ => ?_, ?_, ?_, ?_⟩
  · rfl
  · rfl
  · rfl
  · decide
  · decide
  · decide

/-! ## `getManagedToken`: role fields and expiry -/

/-- C12, as the claim states it, fails: with the role access key id empty and
`role.arn` set in the file, the three base fields decrypting (to `hello`, with
the identity standing for the block primitive), the bundle returned has a
non-empty `RoleArn`. -/
theorem getManagedToken_keeps_RoleArn :
    getManagedToken (fun _ b => b) (.parsed
      { AccessKeyID := str "AAAAAAAAAAAAAAAAAAAAAGhlbGxvCwsLCwsLCwsLCws=",
        AccessKeySecret := str "AAAAAAAAAAAAAAAAAAAAAGhlbGxvCwsLCwsLCwsLCws=",
        SecurityToken := str "AAAAAAAAAAAAAAAAAAAAAGhlbGxvCwsLCwsLCwsLCws=",
        Expiration := str "2030-01-01T00:00:00Z",
        Keyring := str "0123456789abcdef", RoleAccessKeyID := str "",
        RoleAccessKeySecret := str "", RoleArn := str "acs:ram::1:role/r" }) =
      .ret { AccessKeyID := str "hello", AccessKeySecret := str "hello",
             SecurityToken := str "hello", RoleAccessKeyID := str "",
             RoleAccessKeySecret := str "", RoleArn := str "acs:ram::1:role/r" } := by
  decide

/-- C12, amended: when the three base fields decrypt without error, then, if
both role fields of the file are non-empty and decrypt without error, the
bundle carries the five decryptions, and if either role field is empty, the
bundle carries the three base decryptions with `RoleAccessKeyID` and
`RoleAccessKeySecret` empty; in both cases `RoleArn` is the `role.arn` field of
the file, as it stands there. -/
theorem getManagedToken_role_fields (aes : List Byte → List Byte → List Byte)
    (akInfo : AKInfo) (ak sk token : List Byte)
    (hak : Decrypt aes akInfo.AccessKeyID akInfo.Keyring = .ret (ak, none))
    (hsk : Decrypt aes akInfo.AccessKeySecret akInfo.Keyring = .ret (sk, none))
    (htoken : Decrypt aes akInfo.SecurityToken akInfo.Keyring = .ret (token, none)) :
    (akInfo.RoleAccessKeyID ≠ [] ∧ akInfo.RoleAccessKeySecret ≠ [] →
      ∀ roleAK roleSK,
        Decrypt aes akInfo.RoleAccessKeyID akInfo.Keyring = .ret (roleAK, none) →
        Decrypt aes akInfo.RoleAccessKeySecret akInfo.Keyring = .ret (roleSK, none) →
        getManagedToken aes (.parsed akInfo) =
          .ret { AccessKeyID := ak, AccessKeySecret := sk, SecurityToken := token,
                 RoleAccessKeyID := roleAK, RoleAccessKeySecret := roleSK,
                 RoleArn := akInfo.RoleArn }) ∧
    (akInfo.RoleAccessKeyID = [] ∨ akInfo.RoleAccessKeySecret = [] →
      getManagedToken aes (.parsed akInfo) =
        .ret { AccessKeyID := ak, AccessKeySecret := sk, SecurityToken := token,
               RoleAccessKeyID := [], RoleAccessKeySecret := [],
               RoleArn := akInfo.RoleArn }) := by
  constructor
  · intro hrole roleAK roleSK h4 h5
    unfold getManagedToken
    simp only [hak, hsk, htoken, h4, h5, if_pos hrole]
  · intro hrole
    have hn : ¬ (akInfo.RoleAccessKeyID ≠ [] ∧ akInfo.RoleAccessKeySecret ≠ []) := by
      rintro ⟨h1, h2⟩
      rcases hrole with h | h
      · exact h1 h
      · exact h2 h
    unfold getManagedToken
    simp only [hak, hsk, htoken, if_neg hn]

/-- C12, amended, at a file with both role fields set (all five fields decrypt
to `hello`, the identity standing for the block primitive) and, through its
second half, at the same file with the role fields emptied. -/
theorem getManagedToken_role_fields_witness :
    getManagedToken (fun _ b => b) (.parsed
      { AccessKeyID := str "AAAAAAAAAAAAAAAAAAAAAGhlbGxvCwsLCwsLCwsLCws=",
        AccessKeySecret := str "AAAAAAAAAAAAAAAAAAAAAGhlbGxvCwsLCwsLCwsLCws=",
        SecurityToken := str "AAAAAAAAAAAAAAAAAAAAAGhlbGxvCwsLCwsLCwsLCws=",
        Expiration := str "2030-01-01T00:00:00Z",
        Keyring := str "0123456789abcdef",
        RoleAccessKeyID := str "AAAAAAAAAAAAAAAAAAAAAGhlbGxvCwsLCwsLCwsLCws=",
        RoleAccessKeySecret := str "AAAAAAAAAAAAAAAAAAAAAGhlbGxvCwsLCwsLCwsLCws=",
        RoleArn := str "acs:ram::1:role/r" }) =
      .ret { AccessKeyID := str "hello", AccessKeySecret := str "hello",
             SecurityToken := str "hello", RoleAccessKeyID := str "hello",
             RoleAccessKeySecret := str "hello", RoleArn := str "acs:ram::1:role/r" } ∧
    getManagedToken (fun _ b => b) (.parsed
      { AccessKeyID := str "AAAAAAAAAAAAAAAAAAAAAGhlbGxvCwsLCwsLCwsLCws=",
        AccessKeySecret := str "AAAAAAAAAAAAAAAAAAAAAGhlbGxvCwsLCwsLCwsLCws=",
        SecurityToken := str "AAAAAAAAAAAAAAAAAAAAAGhlbGxvCwsLCwsLCwsLCws=",
        Expiration := str "2030-01-01T00:00:00Z",
        Keyring := str "0123456789abcdef",
        RoleAccessKeyID := str "",
        RoleAccessKeySecret := str "AAAAAAAAAAAAAAAAAAAAAGhlbGxvCwsLCwsLCwsLCws=",
        RoleArn := str "" }) =
      .ret { AccessKeyID := str "hello", AccessKeySecret := str "hello",
             SecurityToken := str "hello", RoleAccessKeyID := [],
             RoleAccessKeySecret := [], RoleArn := str "" } :=
  ⟨(getManagedToken_role_fields (fun _ b => b) _ (str "hello") (str "hello") (str "hello")
      (by decide) (by decide) (by decide)).1 (by decide) (str "hello") (str "hello")
      (by decide) (by decide),
   (getManagedToken_role_fields (fun _ b => b) _ (str "hello") (str "hello") (str "hello")
      (by decide) (by decide) (by decide)).2 (Or.inl (by decide))⟩

/-- The value `getManagedTokenAt` returns is that of `getManagedToken`, for
every clock and every reading of the expiration. -/
theorem returned_getManagedTokenAt (Parse : GoString → Option Int) (now : Int)
    (aes : List Byte → List Byte → List Byte) (file : ConfigFile) :
    returned (getManagedTokenAt Parse now aes file) = getManagedToken aes file := by
  cases file with
  | absent => rfl
  | unreadable e => rfl
  | malformed e => rfl
  | parsed akInfo =>
    unfold getManagedTokenAt getManagedToken
    simp only
    rcases h1 : Decrypt aes akInfo.AccessKeyID akInfo.Keyring with ⟨ak, _ | e⟩ | p
    rotate_left
    · rfl
    · rfl
    rcases h2 : Decrypt aes akInfo.AccessKeySecret akInfo.Keyring with ⟨sk, _ | e⟩ | p
    rotate_left
    · rfl
    · rfl
    rcases h3 : Decrypt aes akInfo.SecurityToken akInfo.Keyring with ⟨token, _ | e⟩ | p
    rotate_left
    · rfl
    · rfl
    simp only
    split
    · rcases h4 : Decrypt aes akInfo.RoleAccessKeyID akInfo.Keyring with ⟨rak, _ | e⟩ | p
      rotate_left
      · rfl
      · rfl
      rcases h5 : Decrypt aes akInfo.RoleAccessKeySecret akInfo.Keyring with ⟨rsk, _ | e⟩ | p
      · rfl
      · rfl
      · rfl
    · rfl

/-- The expiry block does log: a past expiration and an unparseable one leave
their lines, a future one leaves none. -/
theorem expiryBlock_examples (Parse : GoString → Option Int) (e : GoString) :
    (Parse e = some 100 → expiryBlock Parse 200 e = [ExpiryLog.invalidTokenExpired]) ∧
    (Parse e = some 300 → expiryBlock Parse 200 e = []) ∧
    (Parse e = none → expiryBlock Parse 200 e =
      [ExpiryLog.parseExpirationError, ExpiryLog.invalidTokenExpired]) := by
  refine ⟨fun h => ?_, fun h => ?_, fun h => ?_⟩ <;> simp [expiryBlock, h, zeroTime]

/-- C13: two managed-token files that differ in the expiration field only,
read at any two times, give the same returned value (the same bundle, or the
same panic): the expiration, parseable or not, past or future, has no part in
it, and the value is the one `getManagedToken` computes without a clock. -/
theorem getManagedToken_expiry_advisory (Parse : GoString → Option Int) (now now2 : Int)
    (aes : List Byte → List Byte → List Byte) (akInfo : AKInfo) (exp exp2 : GoString) :
    returned (getManagedTokenAt Parse now aes (.parsed { akInfo with Expiration := exp })) =
      returned (getManagedTokenAt Parse now2 aes
        (.parsed { akInfo with Expiration := exp2 })) ∧
    returned (getManagedTokenAt Parse now aes (.parsed { akInfo with Expiration := exp })) =
      getManagedToken aes (.parsed akInfo) := by
  have h : ∀ e, getManagedToken aes (.parsed { akInfo with Expiration := e }) =
      getManagedToken aes (.parsed akInfo) := fun _ => rfl
  rw [returned_getManagedTokenAt, returned_getManagedTokenAt, h, h]
  exact ⟨rfl, rfl⟩


/-! ## `GetMetaData` -/

/-- C14, as the claim states it, fails: on a response with status 404 and the
body `not found`, `GetMetaData` returns the body, not the empty string. -/
theorem GetMetaData_returns_error_body :
    GetMetaData (fun _ => .response 404 (str "not found") none) (str "instance-id") =
      str "not found" ∧
    str "not found" ≠ str "" := by
  decide

/-- C14, amended: `GetMetaData` returns the empty string when `http.Get`
errors and when reading the body errors, and returns the body text for every
response whose body is read, whatever its status code. -/
theorem GetMetaData_cases (Get : GoString → HttpResult) (resource : GoString) :
    (∀ err, Get (MetadataURL ++ resource) = .failed err → GetMetaData Get resource = []) ∧
    (∀ statusCode body err, Get (MetadataURL ++ resource) = .response statusCode body (some err) →
      GetMetaData Get resource = []) ∧
    (∀ statusCode body, Get (MetadataURL ++ resource) = .response statusCode body none →
      GetMetaData Get resource = body) := by
  refine ⟨fun err h => ?_, fun st body err h => ?_, fun st body h => ?_⟩ <;>
    simp [GetMetaData, h]

/-- C14, amended, at a request that fails, at a body that cannot be read, and
at a response with status 200 and the body `i-abc`. -/
theorem GetMetaData_cases_witness :
    GetMetaData (fun _ => .failed (str "dial tcp: i/o timeout")) (str "instance-id") = [] ∧
    GetMetaData (fun _ => .response 200 (str "i-a") (some (str "unexpected EOF")))
      (str "instance-id") = [] ∧
    GetMetaData (fun _ => .response 200 (str "i-abc") none) (str "instance-id") = str "i-abc" :=
  ⟨(GetMetaData_cases (fun _ => .failed (str "dial tcp: i/o timeout")) (str "instance-id")).1
      _ rfl,
   (GetMetaData_cases (fun _ => .response 200 (str "i-a") (some (str "unexpected EOF")))
      (str "instance-id")).2.1 _ _ _ rfl,
   (GetMetaData_cases (fun _ => .response 200 (str "i-abc") none) (str "instance-id")).2.2
      _ _ rfl⟩

/-! ## `CheckRequestArgs`: the error returned -/

theorem checkRequestArgs_fold_empty_iff (m : List (GoString × GoString))
    (st : Bool × GoString) (h : st.1 = true ↔ st.2 = []) :
    (m.foldl checkRequestArgsStep st).1 = true ↔ (m.foldl checkRequestArgsStep st).2 = [] := by
  induction m generalizing st with
  | nil => exact h
  | cons x xs ih =>
    rw [List.foldl_cons]
    apply ih
    unfold checkRequestArgsStep
    split
    · simp [str]
    · exact h

/-- C15: `CheckRequestArgs` returns `errors.New(msg)` on every path, so the
error is never nil: for the empty map and for a map with the one clean value
`abc` it returns `valid = true` together with a non-nil error whose message is
empty. For every map the error is non-nil, and its message is empty exactly
when `valid` is true. -/
theorem CheckRequestArgs_error_never_nil :
    CheckRequestArgs [] = (true, some []) ∧
    CheckRequestArgs [(str "k", str "abc")] = (true, some []) ∧
    (∀ m, (CheckRequestArgs m).2 ≠ none) ∧
    (∀ m, (CheckRequestArgs m).1 = true ↔ (CheckRequestArgs m).2 = some []) := by
  refine ⟨by decide, by decide, fun m => ?_, fun m => ?_⟩
  · simp [CheckRequestArgs]
  · have := checkRequestArgs_fold_empty_iff m (true, []) (by simp)
    simpa [CheckRequestArgs] using this

/-! ## `RunWithFilter`, `IsLastSharedVol` -/

theorem findAll_fold (stdout : GoString) (filter : List GoString) (b : Bool) :
    filter.foldl (fun find f => if ¬ Contains stdout f then false else find) b =
      (b && filter.all (fun f => Contains stdout f)) := by
  induction filter generalizing b with
  | nil => simp
  | cons f fs ih =>
    rw [List.foldl_cons, ih]
    cases h : Contains stdout f <;> cases b <;> simp [h]

/-- A line passes the inner loop of `RunWithFilter` when it contains every
filter string. -/
theorem findAll_eq_all (stdout : GoString) (filter : List GoString) :
    findAll stdout filter = filter.all (fun f => Contains stdout f) := by
  unfold findAll
  rw [findAll_fold]
  simp

theorem runWithFilter_fold (filter : List GoString) (lines acc : List GoString) :
    lines.foldl (fun ans line => if findAll line filter then ans ++ [line] else ans) acc =
      acc ++ lines.filter (fun line => findAll line filter) := by
  induction lines generalizing acc with
  | nil => simp
  | cons l ls ih =>
    rw [List.foldl_cons, ih, List.filter_cons]
    cases h : findAll l filter <;> simp

/-- On a command that succeeds, `RunWithFilter` returns the lines of the
output, split on newline, that contain every filter string. -/
theorem RunWithFilter_eq_filter (Sh : GoString → GoString × GoError) (cmd out : GoString)
    (filter : List GoString) (h : Sh cmd = (out, none)) :
    RunWithFilter Sh cmd filter =
      ((Split out 10).filter (fun line => filter.all (fun f => Contains line f)), none) := by
  simp only [RunWithFilter, Run, h, runWithFilter_fold, List.nil_append]
  congr 2
  funext line
  exact findAll_eq_all line filter

/-- On a command that succeeds, `IsLastSharedVol` returns the one-rune string
whose code point is the number of matching lines. -/
theorem IsLastSharedVol_eq (NsenterCmd : GoString) (Sh : GoString → GoString × GoError)
    (pvName out : GoString) (h : Sh (NsenterCmd ++ str " mount") = (out, none)) :
    IsLastSharedVol NsenterCmd Sh pvName =
      (runeString (toRune ((Split out 10).filter (fun line =>
        Contains line (str "volumes/kubernetes.io~csi/" ++ pvName ++ str "/mount") &&
        Contains line (str "fuse.ossfs"))).length), none) := by
  unfold IsLastSharedVol
  simp only [RunWithFilter_eq_filter Sh _ out _ h]
  simp

/-- C16: on a mount table with exactly one matching line `IsLastSharedVol`
returns the one-byte string `\x01` (the conversion `string(rune(1))`), not the
decimal `1`; with no matching line it returns the byte `\x00`, not `0`; when
the command fails it returns the decimal `0`. -/
theorem IsLastSharedVol_not_decimal :
    IsLastSharedVol (str "nsenter")
      (fun _ => (str "oss on /var/lib/kubelet/pods/p/volumes/kubernetes.io~csi/pv1/mount type fuse.ossfs (rw)\nproc on /proc type proc (rw)\n", none))
      (str "pv1") = ([1], none) ∧
    IsLastSharedVol (str "nsenter")
      (fun _ => (str "proc on /proc type proc (rw)\n", none)) (str "pv1") = ([0], none) ∧
    str "1" = [49] ∧ str "0" = [48] ∧
    (IsLastSharedVol (str "nsenter") (fun _ => (str "", some (str "exit status 1")))
      (str "pv1")).1 = str "0" := by
  decide


/-! ## Round trip: base64 -/

theorem decodeMap_encodeStd : ∀ v, v < 64 → decodeMap (encodeStd v) = some v := by decide

theorem decodeLoop_value (srcLen : Nat) (v : Nat) (hv : v < 64) (rest : GoString)
    (q : List Nat) (out : List Byte) :
    decodeLoop srcLen (encodeStd v :: rest) q out =
      if q.length = 3 then decodeLoop srcLen rest [] (out ++ quantumBytes (q ++ [v]))
      else decodeLoop srcLen rest (q ++ [v]) out := by
  rw [decodeLoop, decodeMap_encodeStd v hv]

theorem decodeLoop_quad (srcLen v1 v2 v3 v4 : Nat) (h1 : v1 < 64) (h2 : v2 < 64)
    (h3 : v3 < 64) (h4 : v4 < 64) (rest : GoString) (out : List Byte) :
    decodeLoop srcLen (encodeStd v1 :: encodeStd v2 :: encodeStd v3 :: encodeStd v4 :: rest)
      [] out = decodeLoop srcLen rest [] (out ++ quantumBytes [v1, v2, v3, v4]) := by
  rw [decodeLoop_value srcLen v1 h1]
  simp only [List.length_nil, List.nil_append]
  rw [if_neg (by decide), decodeLoop_value srcLen v2 h2]
  simp only [List.length_cons, List.length_nil, List.cons_append, List.nil_append]
  rw [if_neg (by decide), decodeLoop_value srcLen v3 h3]
  simp only [List.length_cons, List.length_nil, List.cons_append, List.nil_append]
  rw [if_neg (by decide), decodeLoop_value srcLen v4 h4]
  simp only [List.length_cons, List.length_nil, List.cons_append, List.nil_append]
  rw [if_pos (by decide)]

theorem quantumBytes_four (a b c : Nat) (ha : a < 256) (hb : b < 256) (hc : c < 256) :
    quantumBytes [a / 4, a % 4 * 16 + b / 16, b % 16 * 4 + c / 64, c % 64] = [a, b, c] := by
  simp only [quantumBytes, List.getD_cons_zero, List.getD_cons_succ, List.length_cons,
    List.length_nil]
  simp only [List.take, Nat.reduceAdd, Nat.reduceSub]
  refine congrArg₂ _ (by omega) (congrArg₂ _ (by omega) (congrArg₂ _ (by omega) rfl))

theorem quantumBytes_three (a b : Nat) (ha : a < 256) (hb : b < 256) :
    quantumBytes [a / 4, a % 4 * 16 + b / 16, b % 16 * 4] = [a, b] := by
  simp only [quantumBytes, List.getD_cons_zero, List.getD_cons_succ, List.length_cons,
    List.length_nil, List.getD_nil]
  simp only [List.take, Nat.reduceAdd, Nat.reduceSub]
  refine congrArg₂ _ (by omega) (congrArg₂ _ (by omega) rfl)

theorem quantumBytes_two (a : Nat) (ha : a < 256) :
    quantumBytes [a / 4, a % 4 * 16] = [a] := by
  simp only [quantumBytes, List.getD_cons_zero, List.getD_cons_succ, List.length_cons,
    List.length_nil, List.getD_nil]
  simp only [List.take, Nat.reduceAdd, Nat.reduceSub]
  refine congrArg₂ _ (by omega) rfl

theorem decodeLoop_pad2 (srcLen : Nat) (q : List Nat) (hq : q.length = 2) (out : List Byte) :
    decodeLoop srcLen [61, 61] q out = (out ++ quantumBytes q, none) := by
  have h61 : decodeMap 61 = none := by decide
  rw [decodeLoop, h61]
  simp [decodePadding, hq, skipNewlines, decodeTail]

theorem decodeLoop_pad1 (srcLen : Nat) (q : List Nat) (hq : q.length = 3) (out : List Byte) :
    decodeLoop srcLen [61] q out = (out ++ quantumBytes q, none) := by
  have h61 : decodeMap 61 = none := by decide
  rw [decodeLoop, h61]
  simp [decodePadding, hq, skipNewlines, decodeTail]

theorem sextet_bounds (a b c : Nat) (ha : a < 256) (hb : b < 256) (hc : c < 256) :
    a / 4 < 64 ∧ a % 4 * 16 + b / 16 < 64 ∧ b % 16 * 4 + c / 64 < 64 ∧ c % 64 < 64 ∧
    a % 4 * 16 < 64 ∧ b % 16 * 4 < 64 := by
  omega

/-- Decoding undoes encoding: the decoder loop, started between two quanta on
the base64 text of `bs`, appends `bs` to its output and reports no error. -/
theorem decodeLoop_EncodeToString (srcLen : Nat) (bs : List Byte) (hbs : ∀ x ∈ bs, x < 256)
    (out : List Byte) :
    decodeLoop srcLen (EncodeToString bs) [] out = (out ++ bs, none) := by
  induction bs using EncodeToString.induct generalizing out with
  | case1 => simp [EncodeToString, decodeLoop]
  | case2 a =>
    have ha : (a : Nat) < 256 := hbs a (by simp)
    have hs := sextet_bounds a 0 0 ha (by decide) (by decide)
    rw [EncodeToString, decodeLoop_value srcLen _ hs.1]
    simp only [List.length_nil, List.nil_append]
    rw [if_neg (by decide), decodeLoop_value srcLen _ hs.2.2.2.2.1]
    simp only [List.length_cons, List.length_nil, List.cons_append, List.nil_append]
    rw [if_neg (by decide), decodeLoop_pad2 srcLen _ (by simp), quantumBytes_two a ha]
  | case3 a b =>
    have ha : (a : Nat) < 256 := hbs a (by simp)
    have hb : (b : Nat) < 256 := hbs b (by simp)
    have hs := sextet_bounds a b 0 ha hb (by decide)
    rw [EncodeToString, decodeLoop_value srcLen _ hs.1]
    simp only [List.length_nil, List.nil_append]
    rw [if_neg (by decide), decodeLoop_value srcLen _ hs.2.1]
    simp only [List.length_cons, List.length_nil, List.cons_append, List.nil_append]
    rw [if_neg (by decide), decodeLoop_value srcLen _ hs.2.2.2.2.2]
    simp only [List.length_cons, List.length_nil, List.cons_append, List.nil_append]
    rw [if_neg (by decide), decodeLoop_pad1 srcLen _ (by simp), quantumBytes_three a b ha hb]
  | case4 a b c rest ih =>
    have ha : (a : Nat) < 256 := hbs a (by simp)
    have hb : (b : Nat) < 256 := hbs b (by simp)
    have hc : (c : Nat) < 256 := hbs c (by simp)
    have hs := sextet_bounds a b c ha hb hc
    have hrest : ∀ x ∈ rest, x < 256 := fun x hx => hbs x (by simp [hx])
    rw [EncodeToString, decodeLoop_quad srcLen _ _ _ _ hs.1 hs.2.1 hs.2.2.1 hs.2.2.2.1,
      quantumBytes_four a b c ha hb hc, ih hrest]
    simp

theorem EncodeToString_length (bs : List Byte) :
    (EncodeToString bs).length = (bs.length + 2) / 3 * 4 := by
  induction bs using EncodeToString.induct with
  | case1 => rfl
  | case2 a => simp [EncodeToString]
  | case3 a b => simp [EncodeToString]
  | case4 a b c rest ih =>
    rw [EncodeToString]
    simp only [List.length_cons, ih]
    omega

/-- Go `DecodeString` undoes `EncodeToString` on byte values, and the slice it
returns has room for them. -/
theorem DecodeString_EncodeToString (bs : List Byte) (hbs : ∀ x ∈ bs, x < 256) :
    DecodeString (EncodeToString bs) = (bs, none) ∧
    bs.length ≤ DecodedLen (EncodeToString bs).length := by
  constructor
  · rw [DecodeString, decodeLoop_EncodeToString _ bs hbs]
    rfl
  · rw [EncodeToString_length, DecodedLen]
    omega


/-! ## Round trip: CBC and padding -/

theorem xorBytes_length (a b : List Byte) (h : a.length = b.length) :
    (xorBytes a b).length = a.length := by
  simp [xorBytes, List.length_zipWith, h]

theorem xorBytes_cancel (a b : List Byte) (h : a.length = b.length) :
    xorBytes (xorBytes a b) b = a := by
  induction a generalizing b with
  | nil => simp [xorBytes]
  | cons x xs ih =>
    cases b with
    | nil => simp at h
    | cons y ys =>
      have hl : xs.length = ys.length := by simpa using h
      have hxy : Nat.xor (Nat.xor x y) y = x := Nat.xor_cancel_right y x
      have := ih ys hl
      simp only [xorBytes, List.zipWith_cons_cons] at this ⊢
      rw [this, hxy]

theorem xorBytes_lt (a b : List Byte) (ha : ∀ x ∈ a, x < 256) (hb : ∀ x ∈ b, x < 256) :
    ∀ x ∈ xorBytes a b, x < 256 := by
  induction a generalizing b with
  | nil => simp [xorBytes]
  | cons x xs ih =>
    cases b with
    | nil => simp [xorBytes]
    | cons y ys =>
      intro z hz
      simp only [xorBytes, List.zipWith_cons_cons, List.mem_cons] at hz
      rcases hz with hz | hz
      · rw [hz]
        exact @Nat.xor_lt_two_pow x y 8 (ha x (by simp)) (hb y (by simp))
      · exact ih ys (fun w hw => ha w (by simp [hw])) (fun w hw => hb w (by simp [hw])) z hz

/-- CBC decryption undoes CBC encryption, block by block. -/
theorem cryptBlocksLoop_cbcEncryptLoop (enc dec : List Byte → List Byte)
    (hc : IsBlockCipher enc dec) (n : Nat) (prev src : List Byte)
    (hprev : prev.length = 16) (hprevb : ∀ x ∈ prev, x < 256)
    (hsrc : src.length = 16 * n) (hsrcb : ∀ x ∈ src, x < 256) :
    (cbcEncryptLoop enc n prev src).length = 16 * n ∧
    (∀ x ∈ cbcEncryptLoop enc n prev src, x < 256) ∧
    cryptBlocksLoop dec n prev (cbcEncryptLoop enc n prev src) = src := by
  induction n generalizing prev src with
  | zero =>
    have : src = [] := List.length_eq_zero.mp (by simpa using hsrc)
    subst this
    simp [cbcEncryptLoop, cryptBlocksLoop]
  | succ n ih =>
    have hblk : (src.take 16).length = 16 := by
      rw [List.length_take]; omega
    have hblkb : ∀ x ∈ src.take 16, x < 256 := fun x hx => hsrcb x (List.mem_of_mem_take hx)
    have hx : (xorBytes (src.take 16) prev).length = 16 := by
      rw [xorBytes_length _ _ (by rw [hblk, hprev]), hblk]
    have hxb := xorBytes_lt (src.take 16) prev hblkb hprevb
    obtain ⟨hcl, hcb, hcd⟩ := hc (xorBytes (src.take 16) prev) hx hxb
    have hdrop : (src.drop 16).length = 16 * n := by
      rw [List.length_drop]; omega
    have hdropb : ∀ x ∈ src.drop 16, x < 256 := fun x hx => hsrcb x (List.mem_of_mem_drop hx)
    obtain ⟨ihl, ihb, ihd⟩ := ih (enc (xorBytes (src.take 16) prev)) (src.drop 16) hcl hcb
      hdrop hdropb
    refine ⟨?_, ?_, ?_⟩
    · rw [cbcEncryptLoop, List.length_append, hcl, ihl]; omega
    · intro x hx'
      rw [cbcEncryptLoop, List.mem_append] at hx'
      rcases hx' with h | h
      · exact hcb x h
      · exact ihb x h
    · rw [cbcEncryptLoop, cryptBlocksLoop]
      have htake : (enc (xorBytes (src.take 16) prev) ++
          cbcEncryptLoop enc n (enc (xorBytes (src.take 16) prev)) (src.drop 16)).take 16 =
          enc (xorBytes (src.take 16) prev) := List.take_left' hcl
      have hdrop2 : (enc (xorBytes (src.take 16) prev) ++
          cbcEncryptLoop enc n (enc (xorBytes (src.take 16) prev)) (src.drop 16)).drop 16 =
          cbcEncryptLoop enc n (enc (xorBytes (src.take 16) prev)) (src.drop 16) :=
        List.drop_left' hcl
      rw [htake, hdrop2, hcd, xorBytes_cancel _ _ (by rw [hblk, hprev]), ihd,
        List.take_append_drop]

theorem PKCS5Padding_length (p : List Byte) :
    (PKCS5Padding p 16).length = 16 * ((PKCS5Padding p 16).length / 16) ∧
    16 ≤ (PKCS5Padding p 16).length := by
  simp only [PKCS5Padding, List.length_append, List.length_replicate]
  omega

theorem PKCS5Padding_lt (p : List Byte) (hp : ∀ x ∈ p, x < 256) :
    ∀ x ∈ PKCS5Padding p 16, x < 256 := by
  intro x hx
  simp only [PKCS5Padding, List.mem_append, List.mem_replicate] at hx
  rcases hx with h | ⟨-, h⟩
  · exact hp x h
  · rw [h]; exact lt_of_le_of_lt (Nat.sub_le _ _) (by decide)

/-- Go `PKCS5UnPadding` undoes PKCS#5 padding to 16-byte blocks, for every
plaintext. -/
theorem PKCS5UnPadding_PKCS5Padding (p : List Byte) :
    PKCS5UnPadding (PKCS5Padding p 16) = .ret p := by
  have hk1 : 0 < 16 - p.length % 16 := by omega
  have hlen : (PKCS5Padding p 16).length = p.length + (16 - p.length % 16) := by
    simp [PKCS5Padding]
  have hlast : (PKCS5Padding p 16).getD ((PKCS5Padding p 16).length - 1) 0 =
      16 - p.length % 16 := by
    rw [hlen, PKCS5Padding, List.getD_eq_getElem?_getD,
      List.getElem?_append_right (by omega), List.getElem?_replicate]
    rw [if_pos (by omega)]
    rfl
  have hne : ¬ (PKCS5Padding p 16).length = 0 := by rw [hlen]; omega
  have hle : 16 - p.length % 16 ≤ (PKCS5Padding p 16).length := by rw [hlen]; omega
  unfold PKCS5UnPadding
  simp only [hlast]
  rw [if_neg hne, if_pos hle, hlen]
  have : p.length + (16 - p.length % 16) - (16 - p.length % 16) = p.length := by omega
  rw [this, PKCS5Padding, List.take_left]


/-! ## Round trip: `Decrypt` -/

/-- The run of `Decrypt` on the base64 text of an IV followed by whole
ciphertext blocks, under a valid key: the blocks are CBC-decrypted with that IV
and the result goes through `PKCS5UnPadding`. -/
theorem Decrypt_EncodeToString (aes : List Byte → List Byte → List Byte)
    (keyring iv ct padded plain : List Byte) (n : Nat)
    (hkey : keyring.length = 16 ∨ keyring.length = 24 ∨ keyring.length = 32)
    (hiv : iv.length = 16) (hbytes : ∀ x ∈ iv ++ ct, x < 256) (hct : ct.length = 16 * n)
    (hrt : cryptBlocksLoop (aes keyring) n iv ct = padded)
    (hun : PKCS5UnPadding padded = .ret plain) :
    Decrypt aes (EncodeToString (iv ++ ct)) keyring = .ret (plain, none) := by
  obtain ⟨hdec, hcap⟩ := DecodeString_EncodeToString (iv ++ ct) hbytes
  have hlen : (iv ++ ct).length = 16 + 16 * n := by simp [hiv, hct]
  have h1 : ¬ DecodedLen (EncodeToString (iv ++ ct)).length < 16 := by omega
  have h2 : ¬ (iv ++ ct).length < 16 := by omega
  have h3 : (iv ++ ct).drop 16 = ct := List.drop_left' hiv
  have h4 : ¬ ct.length % 16 ≠ 0 := by omega
  have h5 : ct.length / 16 = n := by omega
  have h6 : ∀ z : List Byte, ((iv ++ ct) ++ z).take 16 = iv := by
    intro z
    rw [List.append_assoc]
    exact List.take_left' hiv
  simp only [Decrypt, hdec, NewCipher, if_pos hkey, if_neg h1, if_neg h2, h3, h6,
    CryptBlocks, if_neg h4, h5, hrt, hun]

/-- C11: for every plaintext of byte values, every key of 16, 24 or 32 bytes
and every IV of 16 byte values, with a block primitive whose decryption undoes
its encryption, `Decrypt` applied to the base64 text of the IV followed by the
CBC encryption of the PKCS#5-padded plaintext returns exactly the plaintext and
a nil error; and `PKCS5UnPadding` undoes the padding for every plaintext, the
empty one and those of a whole number of blocks included. -/
theorem Decrypt_Encrypt (aesEncrypt aesDecrypt : List Byte → List Byte → List Byte)
    (keyring iv plain : List Byte)
    (hkey : keyring.length = 16 ∨ keyring.length = 24 ∨ keyring.length = 32)
    (haes : IsBlockCipher (aesEncrypt keyring) (aesDecrypt keyring))
    (hiv : iv.length = 16) (hivb : ∀ x ∈ iv, x < 256) (hplain : ∀ x ∈ plain, x < 256) :
    Decrypt aesDecrypt (Encrypt aesEncrypt iv plain keyring) keyring = .ret (plain, none) ∧
    PKCS5UnPadding (PKCS5Padding plain 16) = .ret plain := by
  obtain ⟨hpl, -⟩ := PKCS5Padding_length plain
  obtain ⟨hctl, hctb, hrt⟩ := cryptBlocksLoop_cbcEncryptLoop (aesEncrypt keyring)
    (aesDecrypt keyring) haes ((PKCS5Padding plain 16).length / 16) iv (PKCS5Padding plain 16)
    hiv hivb hpl (PKCS5Padding_lt plain hplain)
  refine ⟨?_, PKCS5UnPadding_PKCS5Padding plain⟩
  unfold Encrypt
  refine Decrypt_EncodeToString aesDecrypt keyring iv _ (PKCS5Padding plain 16) plain
    ((PKCS5Padding plain 16).length / 16) hkey hiv ?_ hctl hrt
    (PKCS5UnPadding_PKCS5Padding plain)
  intro x hx
  rcases List.mem_append.mp hx with h | h
  · exact hivb x h
  · exact hctb x h

/-- C11 at the plaintexts `hello`, the empty string and `0123456789abcdef` (one
whole block), under the key `0123456789abcdef` and the zero IV, the identity
standing for the block primitive. -/
theorem Decrypt_Encrypt_witness :
    (Encrypt (fun _ b => b) (List.replicate 16 0) (str "hello") (str "0123456789abcdef") =
        str "AAAAAAAAAAAAAAAAAAAAAGhlbGxvCwsLCwsLCwsLCws=" ∧
      Decrypt (fun _ b => b)
        (Encrypt (fun _ b => b) (List.replicate 16 0) (str "hello") (str "0123456789abcdef"))
        (str "0123456789abcdef") = .ret (str "hello", none)) ∧
    Decrypt (fun _ b => b)
      (Encrypt (fun _ b => b) (List.replicate 16 0) (str "") (str "0123456789abcdef"))
      (str "0123456789abcdef") = .ret (str "", none) ∧
    Decrypt (fun _ b => b)
      (Encrypt (fun _ b => b) (List.replicate 16 0) (str "0123456789abcdef")
        (str "0123456789abcdef"))
      (str "0123456789abcdef") = .ret (str "0123456789abcdef", none) :=
  ⟨⟨by decide,
    (Decrypt_Encrypt (fun _ b => b) (fun _ b => b) (str "0123456789abcdef")
      (List.replicate 16 0) (str "hello") (by decide) (fun _ hl hb => ⟨hl, hb, rfl⟩)
      (by decide) (by decide) (by decide)).1⟩,
   (Decrypt_Encrypt (fun _ b => b) (fun _ b => b) (str "0123456789abcdef")
      (List.replicate 16 0) (str "") (by decide) (fun _ hl hb => ⟨hl, hb, rfl⟩)
      (by decide) (by decide) (by decide)).1,
   (Decrypt_Encrypt (fun _ b => b) (fun _ b => b) (str "0123456789abcdef")
      (List.replicate 16 0) (str "0123456789abcdef") (by decide)
      (fun _ hl hb => ⟨hl, hb, rfl⟩) (by decide) (by decide) (by decide)).1⟩


end OssCsi
